import Mathlib

/-!
Verification development for the DOCA flow pipeline engine API
(`doca_flow.h`, `doca_flow_net.h`).  The repository ships the API surface
(struct layouts, enums and documented contracts); the operational behaviour
is modelled here from the design specification, faithful to its words, and
the stated properties are proved against that model.
-/

namespace DocaFlow

/-! ## Network data model, from `doca_flow_net.h` -/

/-- A 32-bit big-endian (network byte order) value, `doca_be32_t`,
modelled as its four bytes in storage (network) order. -/
structure doca_be32 where
  b0 : Nat := 0
  b1 : Nat := 0
  b2 : Nat := 0
  b3 : Nat := 0
  deriving DecidableEq

/-- The byte sequence of a `doca_be32` in network order. -/
def doca_be32.bytes (a : doca_be32) : List Nat :=
  [a.b0, a.b1, a.b2, a.b3]

/-- Bytewise bitwise-and of two `doca_be32` values. -/
def doca_be32.land32 (a b : doca_be32) : doca_be32 :=
  ⟨Nat.land a.b0 b.b0, Nat.land a.b1 b.b1, Nat.land a.b2 b.b2, Nat.land a.b3 b.b3⟩

/-- Model of `struct doca_flow_ip_addr`: tagged union over the ip address type
(`DOCA_FLOW_ADDR_NONE` / `DOCA_FLOW_IP4_ADDR` / `DOCA_FLOW_IP6_ADDR`). -/
inductive doca_flow_ip_addr where
  | addr_none
  | ipv4 (ipv4_addr : doca_be32)
  | ipv6 (a0 a1 a2 a3 : doca_be32)
  deriving DecidableEq

/-- The `type` discriminant of an ip address, per `enum doca_flow_ip_type`. -/
def doca_flow_ip_addr.ipType : doca_flow_ip_addr → Nat
  | .addr_none => 0
  | .ipv4 _ => 4
  | .ipv6 _ _ _ _ => 6

/-- The network-order byte sequence carried by an ip address. -/
def doca_flow_ip_addr.bytes : doca_flow_ip_addr → List Nat
  | .addr_none => []
  | .ipv4 a => a.bytes
  | .ipv6 a0 a1 a2 a3 => a0.bytes ++ a1.bytes ++ a2.bytes ++ a3.bytes

/-- Bitwise-and of two ip addresses of the same shape; addresses of
different shapes have no common bits and collapse to `addr_none`. -/
def doca_flow_ip_addr.landIp : doca_flow_ip_addr → doca_flow_ip_addr → doca_flow_ip_addr
  | .ipv4 a, .ipv4 b => .ipv4 (a.land32 b)
  | .ipv6 a0 a1 a2 a3, .ipv6 b0 b1 b2 b3 =>
      .ipv6 (a0.land32 b0) (a1.land32 b1) (a2.land32 b2) (a3.land32 b3)
  | _, _ => .addr_none

/-- Model of `struct doca_flow_tun`: tagged union over `enum doca_flow_tun_type`. -/
inductive doca_flow_tun where
  | tun_none
  | vxlan (vxlan_tun_id : doca_be32)
  | gtpu (gtp_teid : doca_be32)
  | gre (gre_key : doca_be32)
  deriving DecidableEq

/-- Bitwise-and of two tunnel descriptors of the same shape. -/
def doca_flow_tun.landTun : doca_flow_tun → doca_flow_tun → doca_flow_tun
  | .vxlan a, .vxlan b => .vxlan (a.land32 b)
  | .gtpu a, .gtpu b => .gtpu (a.land32 b)
  | .gre a, .gre b => .gre (a.land32 b)
  | _, _ => .tun_none

/-- Bytewise bitwise-and of two mac addresses (6-byte sequences). -/
def macLand (a b : List Nat) : List Nat :=
  List.zipWith Nat.land a b

/-! ## Match, actions and monitor, from `doca_flow.h` -/

/-- Model of `struct doca_flow_match`: structured selector over L2-L4 and one
tunnel level; multi-byte numeric fields are big-endian (`doca_be16_t`
values are modelled as plain naturals, `doca_be32_t` as byte quadruples). -/
structure doca_flow_match where
  flags : Nat := 0
  out_src_mac : List Nat := [0, 0, 0, 0, 0, 0]
  out_dst_mac : List Nat := [0, 0, 0, 0, 0, 0]
  out_eth_type : Nat := 0
  vlan_id : Nat := 0
  out_src_ip : doca_flow_ip_addr := .addr_none
  out_dst_ip : doca_flow_ip_addr := .addr_none
  out_l4_type : Nat := 0
  out_src_port : Nat := 0
  out_dst_port : Nat := 0
  tun : doca_flow_tun := .tun_none
  in_eth_type : Nat := 0
  in_src_ip : doca_flow_ip_addr := .addr_none
  in_dst_ip : doca_flow_ip_addr := .addr_none
  in_l4_type : Nat := 0
  in_src_port : Nat := 0
  in_dst_port : Nat := 0
  deriving DecidableEq

/-- The all-defaults match value. -/
def match0 : doca_flow_match := {}

/-- Model of `struct doca_flow_encap_action`: full header data to prepend on encap. -/
structure doca_flow_encap_action where
  src_mac : List Nat := [0, 0, 0, 0, 0, 0]
  dst_mac : List Nat := [0, 0, 0, 0, 0, 0]
  src_ip : doca_flow_ip_addr := .addr_none
  dst_ip : doca_flow_ip_addr := .addr_none
  tun : doca_flow_tun := .tun_none
  deriving DecidableEq

/-- Model of `struct doca_flow_actions`. -/
structure doca_flow_actions where
  decap : Bool := false
  mod_src_mac : List Nat := [0, 0, 0, 0, 0, 0]
  mod_dst_mac : List Nat := [0, 0, 0, 0, 0, 0]
  mod_src_ip : doca_flow_ip_addr := .addr_none
  mod_dst_ip : doca_flow_ip_addr := .addr_none
  mod_src_port : Nat := 0
  mod_dst_port : Nat := 0
  dec_ttl : Bool := false
  has_encap : Bool := false
  encap : doca_flow_encap_action := {}
  deriving DecidableEq

/-- Model of `struct doca_flow_monitor`: meter, counter and aging configuration.
`flags` carries the `DOCA_FLOW_MONITOR_*` bits (METER = bit 1,
COUNT = bit 2, AGING = bit 3). -/
structure doca_flow_monitor where
  flags : Nat := 0
  id : Nat := 0
  cir : Nat := 0
  cbs : Nat := 0
  aging : Nat := 0
  user_data : Nat := 0
  deriving DecidableEq

/-- The all-defaults monitor value. -/
def monitor0 : doca_flow_monitor := {}

/-- Model of `struct doca_flow_query`: snapshot returned by `doca_flow_query`. -/
structure doca_flow_query_result where
  total_bytes : Nat := 0
  total_pkts : Nat := 0
  deriving DecidableEq

/-! ## Byte-order round-trip helpers (claim C9)

Modelled from the spec: all multi-byte numeric fields are carried in
network byte order and must be preserved bit-exactly; constructing a
match with a given IPv4 address and reading it back, including through
the encap action structure, preserves the exact byte sequence. -/

/-- Build an IPv4 address from its four network-order bytes. -/
def mk_ipv4_addr (b0 b1 b2 b3 : Nat) : doca_flow_ip_addr :=
  .ipv4 ⟨b0, b1, b2, b3⟩

/-- Store an ip address into the `out_src_ip` field of a match. -/
def match_set_out_src_ip (m : doca_flow_match) (a : doca_flow_ip_addr) :
    doca_flow_match :=
  { m with out_src_ip := a }

/-- Build an encap action whose addresses are taken from the outer
fields of a match (the encap side of a decap/encap round trip). -/
def encap_from_match (m : doca_flow_match) : doca_flow_encap_action :=
  { src_mac := m.out_src_mac
    dst_mac := m.out_dst_mac
    src_ip := m.out_src_ip
    dst_ip := m.out_dst_ip
    tun := m.tun }

/-- Wrap an encap action into a full actions struct with `has_encap` set. -/
def actions_with_encap (e : doca_flow_encap_action) : doca_flow_actions :=
  { has_encap := true, encap := e }

/-! ## Aging sweeper state machine (claims C1, C2)

Modelled from the spec: `doca_flow_handle_aging` is missing from the
repository sources (only its declaration and documented contract are
present).  Per spec section 4.5 and design note, the sweeper is a
resumable cursor over the per-queue tracked entries; each aging-enabled
entry carries timer state {last-seen timestamp, timeout}; the wall-clock
micro-second `quota` is abstracted as a work budget of one unit per
scanned entry.  An expired entry transitions to a pending-removal state
and is reported through the caller's `entries` array (bounded by `len`);
the call returns the count of newly expired entries, `0` when none
expired but the sweep is incomplete, and `-1` exactly when a full cycle
completed with nothing newly pending, resetting the cursor. -/

/-- Per-entry aging timer state tracked by the sweeper. -/
structure aging_entry where
  enabled : Bool := true
  timeout : Nat := 0
  last_seen : Nat := 0
  pending : Bool := false
  user_data : Nat := 0
  deriving DecidableEq

/-- Whether an entry newly expires at time `now`: aging is enabled, the
entry is not already pending removal, and its inactivity timeout has
elapsed since it was last seen. -/
def aged (now : Nat) (e : aging_entry) : Bool :=
  e.enabled && !e.pending && decide (e.last_seen + e.timeout ≤ now)

/-- Mark an entry as pending removal. -/
def markPending (e : aging_entry) : aging_entry :=
  { e with pending := true }

/-- Per-queue sweeper state: the tracked entries and the resumable
cursor saved between calls. -/
structure aging_queue where
  entries : List aging_entry := []
  cursor : Nat := 0
  deriving DecidableEq

/-- Outcome of one bounded scan: the rescanned tail (with newly expired
entries marked pending), the number of entries scanned, and the
user data of the newly expired entries, in scan order. -/
structure ScanOut where
  rest : List aging_entry
  scanned : Nat
  collected : List Nat
  deriving DecidableEq

/-- One bounded scan over the remaining entries: each scanned entry
costs one unit of `quota`; an expired entry is marked pending and
collected while `room` remains in the caller's array; the scan stops
when the list, the quota, or the room is exhausted. -/
def aging_scan (now : Nat) : List aging_entry → Nat → Nat → ScanOut
  | [], _, _ => ⟨[], 0, []⟩
  | e :: es, quota, room =>
    if quota = 0 then ⟨e :: es, 0, []⟩
    else if aged now e then
      if room = 0 then ⟨e :: es, 0, []⟩
      else
        let r := aging_scan now es (quota - 1) (room - 1)
        ⟨markPending e :: r.rest, r.scanned + 1, e.user_data :: r.collected⟩
    else
      let r := aging_scan now es (quota - 1) room
      ⟨e :: r.rest, r.scanned + 1, r.collected⟩

/-- Model of `doca_flow_handle_aging`: resume the sweep at the saved cursor,
scan under the quota, and return the documented status code together
with the collected aged entries and the successor state. -/
def doca_flow_handle_aging (now quota len : Nat) (st : aging_queue) :
    Int × List Nat × aging_queue :=
  let out := aging_scan now (st.entries.drop st.cursor) quota len
  let es' := st.entries.take st.cursor ++ out.rest
  let cur' := st.cursor + out.scanned
  if 0 < out.collected.length then
    ((out.collected.length : Int), out.collected,
      ⟨es', if es'.length ≤ cur' then 0 else cur'⟩)
  else if es'.length ≤ cur' then
    (-1, [], ⟨es', 0⟩)
  else
    (0, [], ⟨es', cur'⟩)

/-- Iterate `doca_flow_handle_aging` `k` times, collecting the return
codes in call order. -/
def run_aging (now quota len : Nat) : Nat → aging_queue → List Int
  | 0, _ => []
  | k + 1, st =>
    let r := doca_flow_handle_aging now quota len st
    r.1 :: run_aging now quota len k r.2.2

/-- Entries whose expiry the sweeper can still newly observe at `now`. -/
def eligibleCount (now : Nat) (es : List aging_entry) : Nat :=
  es.countP (aged now)

/-- Termination measure for the sweep at a fixed observation time. -/
def agingMeasure (now : Nat) (st : aging_queue) : Nat :=
  eligibleCount now st.entries * (st.entries.length + 1) +
    (st.entries.length - st.cursor)

/-! ### Basic facts about the bounded scan -/

theorem aged_markPending (now : Nat) (e : aging_entry) :
    aged now (markPending e) = false := by
  simp [aged, markPending]

theorem aging_scan_rest_length (now : Nat) (es : List aging_entry) (q room : Nat) :
    (aging_scan now es q room).rest.length = es.length := by
  induction es generalizing q room with
  | nil => simp [aging_scan]
  | cons e es ih =>
    simp only [aging_scan]
    split
    · rfl
    · split
      · split
        · rfl
        · simp [ih]
      · simp [ih]

theorem aging_scan_scanned_le_quota (now : Nat) (es : List aging_entry) (q room : Nat) :
    (aging_scan now es q room).scanned ≤ q := by
  induction es generalizing q room with
  | nil => simp [aging_scan]
  | cons e es ih =>
    simp only [aging_scan]
    split
    · rename_i hq0
      simp [hq0]
    · rename_i hq0
      split
      · split
        · simp
        · have := ih (q - 1) (room - 1)
          simp only []
          omega
      · have := ih (q - 1) room
        simp only []
        omega

theorem aging_scan_scanned_le_length (now : Nat) (es : List aging_entry) (q room : Nat) :
    (aging_scan now es q room).scanned ≤ es.length := by
  induction es generalizing q room with
  | nil => simp [aging_scan]
  | cons e es ih =>
    simp only [aging_scan]
    split
    · simp
    · split
      · split
        · simp
        · have := ih (q - 1) (room - 1)
          simp only [List.length_cons]
          omega
      · have := ih (q - 1) room
        simp only [List.length_cons]
        omega

theorem aging_scan_collected_le_room (now : Nat) (es : List aging_entry) (q room : Nat) :
    (aging_scan now es q room).collected.length ≤ room := by
  induction es generalizing q room with
  | nil => simp [aging_scan]
  | cons e es ih =>
    simp only [aging_scan]
    split
    · simp
    · split
      · split
        · simp
        · have := ih (q - 1) (room - 1)
          simp only [List.length_cons]
          omega
      · have := ih (q - 1) room
        simp only []
        omega

theorem aging_scan_eligible (now : Nat) (es : List aging_entry) (q room : Nat) :
    eligibleCount now (aging_scan now es q room).rest +
      (aging_scan now es q room).collected.length = eligibleCount now es := by
  induction es generalizing q room with
  | nil => simp [aging_scan]
  | cons e es ih =>
    simp only [aging_scan]
    split
    · simp
    · split
      · rename_i hag
        split
        · simp
        · have := ih (q - 1) (room - 1)
          simp only [eligibleCount, List.countP_cons, aged_markPending, List.length_cons] at *
          simp [hag]
          omega
      · rename_i hag
        have := ih (q - 1) room
        simp only [eligibleCount, List.countP_cons] at *
        simp only [Bool.not_eq_true] at hag
        simp [hag]
        omega

theorem aging_scan_collected_nil (now : Nat) (es : List aging_entry) (q room : Nat)
    (h : (aging_scan now es q room).collected = []) :
    (aging_scan now es q room).rest = es := by
  induction es generalizing q room with
  | nil => simp [aging_scan]
  | cons e es ih =>
    by_cases hq0 : q = 0
    · simp [aging_scan, hq0]
    · by_cases hag : aged now e = true
      · by_cases hr : room = 0
        · simp [aging_scan, hq0, hag, hr]
        · simp [aging_scan, hq0, hag, hr] at h
      · have hh : (aging_scan now es (q - 1) room).collected = [] := by
          simpa [aging_scan, hq0, hag] using h
        simp [aging_scan, hq0, hag, ih (q - 1) room hh]

theorem aging_scan_progress (now : Nat) (es : List aging_entry) (q room : Nat)
    (hne : es ≠ []) (hq : 1 ≤ q) (hr : 1 ≤ room) :
    1 ≤ (aging_scan now es q room).scanned := by
  cases es with
  | nil => exact absurd rfl hne
  | cons e es =>
    simp only [aging_scan]
    split
    · omega
    · split
      · split
        · omega
        · simp
      · simp

theorem aging_scan_all_aged (now : Nat) (es : List aging_entry) (q room : Nat)
    (h : ∀ e ∈ es, aged now e = true) (hq : es.length ≤ q) :
    aging_scan now es q room =
      ⟨(es.take (min room es.length)).map markPending ++ es.drop (min room es.length),
       min room es.length,
       (es.take (min room es.length)).map (·.user_data)⟩ := by
  induction es generalizing q room with
  | nil => simp [aging_scan]
  | cons e es ih =>
    have hq0 : ¬ q = 0 := by simp at hq; omega
    have hag : aged now e = true := h e (List.mem_cons_self e es)
    cases room with
    | zero => simp [aging_scan, hq0, hag]
    | succ r =>
      have hrec := ih (q - 1) r (fun x hx => h x (List.mem_cons_of_mem e hx))
        (by simp at hq; omega)
      have hstep : aging_scan now (e :: es) q (r + 1) =
          ⟨markPending e :: (aging_scan now es (q - 1) r).rest,
           (aging_scan now es (q - 1) r).scanned + 1,
           e.user_data :: (aging_scan now es (q - 1) r).collected⟩ := by
        simp [aging_scan, hq0, hag]
      rw [hstep, hrec]
      have hmin : min (r + 1) (e :: es).length = min r es.length + 1 := by
        simp
        omega
      rw [hmin]
      simp [List.take_succ_cons, List.drop_succ_cons]

theorem aging_scan_none_aged (now : Nat) (es : List aging_entry) (q room : Nat)
    (h : ∀ e ∈ es, aged now e = false) (hq : es.length ≤ q) :
    aging_scan now es q room = ⟨es, es.length, []⟩ := by
  induction es generalizing q room with
  | nil => simp [aging_scan]
  | cons e es ih =>
    have hq0 : ¬ q = 0 := by simp at hq; omega
    have hag : aged now e = false := h e (List.mem_cons_self e es)
    simp only [aging_scan, hq0, if_false, hag, Bool.false_eq_true]
    have hrec := ih (q - 1) room (fun x hx => h x (List.mem_cons_of_mem e hx)) (by simp at hq; omega)
    simp [hrec]

/-! ### The sweep invariant: a prefix of entries already marked pending -/

/-- The first `k` entries marked pending, the rest untouched. -/
def markFirst (k : Nat) (es : List aging_entry) : List aging_entry :=
  (es.take k).map markPending ++ es.drop k

theorem markFirst_length (k : Nat) (es : List aging_entry) :
    (markFirst k es).length = es.length := by
  simp [markFirst]
  omega

theorem markFirst_zero (es : List aging_entry) : markFirst 0 es = es := by
  simp [markFirst]

theorem markFirst_full (es : List aging_entry) :
    markFirst es.length es = es.map markPending := by
  simp [markFirst]

theorem markFirst_all_not_aged (now : Nat) (es : List aging_entry) :
    ∀ e ∈ markFirst es.length es, aged now e = false := by
  intro e he
  rw [markFirst_full] at he
  obtain ⟨x, _, rfl⟩ := List.mem_map.mp he
  exact aged_markPending now x

theorem markFirst_take (c : Nat) (es : List aging_entry) (hc : c ≤ es.length) :
    (markFirst c es).take c = (es.take c).map markPending := by
  have hl : ((es.take c).map markPending).length = c := by
    simp
    omega
  rw [markFirst, List.take_left' hl]

theorem markFirst_drop (c : Nat) (es : List aging_entry) (hc : c ≤ es.length) :
    (markFirst c es).drop c = es.drop c := by
  have hl : ((es.take c).map markPending).length = c := by
    simp
    omega
  rw [markFirst, List.drop_left' hl]

/-- A call whose cursor is already at (or past) the end of the tracked
entries completes the cycle: it reports `-1` and resets the cursor. -/
theorem handle_aging_at_end (now quota len : Nat) (st : aging_queue)
    (hcur : st.entries.length ≤ st.cursor) :
    doca_flow_handle_aging now quota len st = (-1, [], ⟨st.entries, 0⟩) := by
  have hdrop : st.entries.drop st.cursor = [] := List.drop_eq_nil_of_le hcur
  have htake : st.entries.take st.cursor = st.entries := List.take_of_length_le hcur
  simp only [doca_flow_handle_aging, hdrop, htake]
  simp [aging_scan]
  omega

/-- A full-quota call over a list with no newly expiring entry scans the
whole list. -/
theorem handle_aging_terminal (now quota len : Nat) (es : List aging_entry)
    (hq : es.length ≤ quota) (h : ∀ e ∈ es, aged now e = false) :
    doca_flow_handle_aging now quota len ⟨es, 0⟩ = (-1, [], ⟨es, 0⟩) := by
  simp only [doca_flow_handle_aging, List.drop_zero, List.take_zero, List.nil_append]
  rw [aging_scan_none_aged now es quota len h hq]
  simp

/-- One mid-sweep call on an all-expired table: the next batch of
`min len (remaining)` entries is reported and marked. -/
theorem handle_aging_step_aged (now quota len c : Nat) (es : List aging_entry)
    (hall : ∀ e ∈ es, aged now e = true) (hq : es.length ≤ quota) (hlen : 1 ≤ len)
    (hc : c < es.length) :
    doca_flow_handle_aging now quota len ⟨markFirst c es, c⟩ =
      (((min len (es.length - c) : Nat) : Int),
       ((es.drop c).take (min len (es.length - c))).map (·.user_data),
       ⟨markFirst (c + min len (es.length - c)) es,
        if es.length ≤ c + min len (es.length - c) then 0
        else c + min len (es.length - c)⟩) := by
  have hcle : c ≤ es.length := le_of_lt hc
  have hdropm : (markFirst c es).drop c = es.drop c := markFirst_drop c es hcle
  have htakem : (markFirst c es).take c = (es.take c).map markPending :=
    markFirst_take c es hcle
  have hallD : ∀ e ∈ es.drop c, aged now e = true := fun e he =>
    hall e (List.mem_of_mem_drop he)
  have hlen_drop : (es.drop c).length = es.length - c := List.length_drop _ _
  have hqD : (es.drop c).length ≤ quota := by
    rw [hlen_drop]
    omega
  have hscan := aging_scan_all_aged now (es.drop c) quota len hallD hqD
  have hmD : min len (es.drop c).length = min len (es.length - c) := by
    rw [hlen_drop]
  have hm1 : 1 ≤ min len (es.length - c) := by
    have h1 : 1 ≤ es.length - c := by omega
    exact Nat.le_min.mpr ⟨hlen, h1⟩
  have hmle : min len (es.length - c) ≤ es.length - c := min_le_right _ _
  have hcol_len :
      (((es.drop c).take (min len (es.length - c))).map
        (fun x => x.user_data)).length = min len (es.length - c) := by
    simp [hlen_drop]
  have hes' : (es.take c).map markPending ++
      (((es.drop c).take (min len (es.length - c))).map markPending ++
        (es.drop c).drop (min len (es.length - c))) =
      markFirst (c + min len (es.length - c)) es := by
    rw [markFirst, List.take_add, List.map_append, List.append_assoc,
      List.drop_drop]
  simp only [doca_flow_handle_aging, hdropm, hscan, hmD, htakem, hes', hcol_len,
    markFirst_length]
  rw [if_pos (by omega : 0 < min len (es.length - c))]

/-- The bounded sweep over an all-expired table, started from any
invariant state in which the first `c` entries are already marked:
finitely many positive batches, each at most `len`, summing to the
remaining `d` entries, followed by a `-1` cycle-completion call. -/
theorem sweep_aux (now quota len : Nat) (es : List aging_entry)
    (hall : ∀ e ∈ es, aged now e = true) (hq : es.length ≤ quota) (hlen : 1 ≤ len) :
    ∀ d c, c + d = es.length →
      ∃ k rs, run_aging now quota len k ⟨markFirst c es, c⟩ = rs ++ [-1] ∧
        (∀ r ∈ rs, 0 < r ∧ r ≤ (len : Int)) ∧ rs.sum = (d : Int) := by
  intro d
  induction d using Nat.strong_induction_on with
  | _ d ih =>
    intro c hc
    cases Nat.eq_zero_or_pos d with
    | inl hd0 =>
      subst hd0
      have hcl : c = es.length := by omega
      refine ⟨1, [], ?_, by simp, by simp⟩
      have hend := handle_aging_at_end now quota len ⟨markFirst c es, c⟩
        (by simp [markFirst_length]; omega)
      simp [run_aging, hend]
    | inr hdpos =>
      have hclt : c < es.length := by omega
      have hcall := handle_aging_step_aged now quota len c es hall hq hlen hclt
      set m := min len (es.length - c) with hm
      have hm1 : 1 ≤ m := by
        have h1 : 1 ≤ es.length - c := by omega
        exact Nat.le_min.mpr ⟨hlen, h1⟩
      have hmlen : m ≤ len := min_le_left _ _
      have hmle : m ≤ es.length - c := min_le_right _ _
      by_cases hdone : es.length ≤ c + m
      · -- this batch finishes the cycle; the next call reports -1
        have hmeq : m = d := by omega
        have hterm : doca_flow_handle_aging now quota len
            ⟨markFirst (c + m) es, 0⟩ = (-1, [], ⟨markFirst (c + m) es, 0⟩) := by
          have hcm : c + m = es.length := by omega
          rw [hcm]
          exact handle_aging_terminal now quota len (markFirst es.length es)
            (by rw [markFirst_length]; omega)
            (markFirst_all_not_aged now es)
        refine ⟨2, [(m : Int)], ?_, ?_, by simp [hmeq]⟩
        · simp [run_aging, hcall, hdone, hterm]
        · intro r hr
          simp at hr
          subst hr
          exact ⟨by omega, by omega⟩
      · -- the sweep continues from cursor c + m
        have hstep := ih (d - m) (by omega) (c + m) (by omega)
        obtain ⟨k', rs', hrun', hfor', hsum'⟩ := hstep
        refine ⟨k' + 1, (m : Int) :: rs', ?_, ?_, ?_⟩
        · simp only [run_aging, hcall]
          rw [if_neg hdone]
          simp [hrun']
        · intro r hr
          rcases List.mem_cons.mp hr with hr | hr
          · subst hr
            exact ⟨by omega, by omega⟩
          · exact hfor' r hr
        · simp [hsum']
          omega

theorem handle_aging_entries_length (now quota len : Nat) (st : aging_queue) :
    ((doca_flow_handle_aging now quota len st).2.2).entries.length =
      st.entries.length := by
  have hrest := aging_scan_rest_length now (st.entries.drop st.cursor) quota len
  simp only [doca_flow_handle_aging]
  split
  · simp [hrest]
    omega
  · split
    · simp [hrest]
      omega
    · simp [hrest]
      omega

/-- Claim C1: for every queue with N aging-enabled entries all past their
inactivity timeout, repeated `doca_flow_handle_aging` calls return positive
counts of newly-expired entries, each bounded by the caller's array length,
summing to N over the sweep; `-1` is returned exactly on a call that
completes a full sweep cycle over the tracked entries with nothing newly
expired, the call after the last expired batch returns `-1`, and that call
resets the cursor so the next call restarts a new cycle. -/
theorem aging_completeness (now quota len : Nat) (es : List aging_entry)
    (hall : ∀ e ∈ es, aged now e = true)
    (hq : es.length ≤ quota) (hlen : 1 ≤ len) :
    (∃ k rs, run_aging now quota len k ⟨es, 0⟩ = rs ++ [-1] ∧
      (∀ r ∈ rs, 0 < r ∧ r ≤ (len : Int)) ∧ rs.sum = (es.length : Int)) ∧
    (∀ (now' quota' len' : Nat) (st : aging_queue),
      ((doca_flow_handle_aging now' quota' len' st).1 = -1 ↔
        (aging_scan now' (st.entries.drop st.cursor) quota' len').collected = [] ∧
        st.entries.length ≤
          st.cursor + (aging_scan now' (st.entries.drop st.cursor) quota' len').scanned) ∧
      ((doca_flow_handle_aging now' quota' len' st).1 = -1 →
        ((doca_flow_handle_aging now' quota' len' st).2.2).cursor = 0)) := by
  constructor
  · have h := sweep_aux now quota len es hall hq hlen es.length 0 (by omega)
    rwa [markFirst_zero] at h
  · intro now' quota' len' st
    have hrest := aging_scan_rest_length now' (st.entries.drop st.cursor) quota' len'
    constructor
    · simp only [doca_flow_handle_aging]
      split
      · rename_i hpos
        constructor
        · intro h
          exfalso
          omega
        · intro ⟨h1, _⟩
          rw [h1] at hpos
          simp at hpos
      · split
        · rename_i hpos hend
          simp only [List.length_append, List.length_take, hrest,
            List.length_drop] at hend
          constructor
          · intro _
            refine ⟨List.length_eq_zero.mp (by omega), by omega⟩
          · intro _
            rfl
        · rename_i hpos hend
          simp only [List.length_append, List.length_take, hrest,
            List.length_drop] at hend
          constructor
          · intro h
            exfalso
            omega
          · intro ⟨h1, h2⟩
            exfalso
            omega
    · simp only [doca_flow_handle_aging]
      split
      · rename_i hpos
        intro h
        exfalso
        omega
      · split
        · intro _
          rfl
        · intro h
          exfalso
          omega

/-- Instantiation of `aging_completeness` on a concrete three-entry queue
with a two-slot output array. -/
theorem aging_completeness_witness :
    (∀ e ∈ ([⟨true, 1, 0, false, 7⟩, ⟨true, 1, 0, false, 8⟩,
             ⟨true, 1, 0, false, 9⟩] : List aging_entry), aged 5 e = true) ∧
    ([⟨true, 1, 0, false, 7⟩, ⟨true, 1, 0, false, 8⟩,
      ⟨true, 1, 0, false, 9⟩] : List aging_entry).length ≤ 4 ∧ 1 ≤ 2 ∧
    ((∃ k rs, run_aging 5 4 2 k
        ⟨[⟨true, 1, 0, false, 7⟩, ⟨true, 1, 0, false, 8⟩,
          ⟨true, 1, 0, false, 9⟩], 0⟩ = rs ++ [-1] ∧
      (∀ r ∈ rs, 0 < r ∧ r ≤ (2 : Int)) ∧
      rs.sum = (([⟨true, 1, 0, false, 7⟩, ⟨true, 1, 0, false, 8⟩,
        ⟨true, 1, 0, false, 9⟩] : List aging_entry).length : Int)) ∧
     (∀ (now' quota' len' : Nat) (st : aging_queue),
      ((doca_flow_handle_aging now' quota' len' st).1 = -1 ↔
        (aging_scan now' (st.entries.drop st.cursor) quota' len').collected = [] ∧
        st.entries.length ≤
          st.cursor + (aging_scan now' (st.entries.drop st.cursor) quota' len').scanned) ∧
      ((doca_flow_handle_aging now' quota' len' st).1 = -1 →
        ((doca_flow_handle_aging now' quota' len' st).2.2).cursor = 0))) :=
  ⟨by decide, by decide, by decide,
    aging_completeness 5 4 2 _ (by decide) (by decide) (by decide)⟩

/-! ### Quota bound and non-starvation of the sweep (claim C2) -/

/-- A call that returns `0` made real progress: the saved cursor strictly
advanced (and the tracked entries are untouched). -/
theorem handle_aging_progress_zero (now quota len : Nat) (st : aging_queue)
    (hq : 1 ≤ quota) (hlen : 1 ≤ len)
    (h0 : (doca_flow_handle_aging now quota len st).1 = 0) :
    ((doca_flow_handle_aging now quota len st).2.2).entries = st.entries ∧
    st.cursor < ((doca_flow_handle_aging now quota len st).2.2).cursor ∧
    ((doca_flow_handle_aging now quota len st).2.2).cursor < st.entries.length := by
  have hrest := aging_scan_rest_length now (st.entries.drop st.cursor) quota len
  simp only [doca_flow_handle_aging] at h0 ⊢
  split at h0
  · rename_i hpos
    exfalso
    omega
  · split at h0
    · simp at h0
    · rename_i hpos hend
      rw [if_neg hpos, if_neg hend]
      dsimp only
      have hnil : (aging_scan now (st.entries.drop st.cursor) quota len).collected
          = [] := List.length_eq_zero.mp (by omega)
      have hrid := aging_scan_collected_nil now (st.entries.drop st.cursor)
        quota len hnil
      rw [hrid] at hend ⊢
      rw [List.take_append_drop] at hend ⊢
      have hcur : st.cursor < st.entries.length := by
        simp only [not_le] at hend
        have := Nat.le_add_right st.cursor
          (aging_scan now (st.entries.drop st.cursor) quota len).scanned
        omega
      have hne : st.entries.drop st.cursor ≠ [] := by
        intro hcon
        have := congrArg List.length hcon
        simp at this
        omega
      have hprog := aging_scan_progress now (st.entries.drop st.cursor)
        quota len hne hq hlen
      refine ⟨rfl, by omega, by omega⟩

/-- Any call that does not complete the cycle strictly decreases the
sweep measure. -/
theorem handle_aging_measure_lt (now quota len : Nat) (st : aging_queue)
    (hq : 1 ≤ quota) (hlen : 1 ≤ len)
    (hne : (doca_flow_handle_aging now quota len st).1 ≠ -1) :
    agingMeasure now ((doca_flow_handle_aging now quota len st).2.2) <
      agingMeasure now st := by
  have hrest := aging_scan_rest_length now (st.entries.drop st.cursor) quota len
  have helig := aging_scan_eligible now (st.entries.drop st.cursor) quota len
  have hsplitE : eligibleCount now st.entries =
      eligibleCount now (st.entries.take st.cursor) +
      eligibleCount now (st.entries.drop st.cursor) := by
    rw [eligibleCount, eligibleCount, eligibleCount, ← List.countP_append,
      List.take_append_drop]
  simp only [doca_flow_handle_aging] at hne ⊢
  split
  · rename_i hpos
    have hlen' : (st.entries.take st.cursor ++
        (aging_scan now (st.entries.drop st.cursor) quota len).rest).length =
        st.entries.length := by
      simp [hrest]
      omega
    have hEsplit' : eligibleCount now (st.entries.take st.cursor ++
        (aging_scan now (st.entries.drop st.cursor) quota len).rest) =
        eligibleCount now (st.entries.take st.cursor) +
        eligibleCount now
          (aging_scan now (st.entries.drop st.cursor) quota len).rest := by
      simp [eligibleCount, List.countP_append]
    simp only [agingMeasure, hlen', hEsplit']
    have hkey : eligibleCount now (st.entries.take st.cursor) +
        eligibleCount now
          (aging_scan now (st.entries.drop st.cursor) quota len).rest + 1 ≤
        eligibleCount now st.entries := by omega
    have h3 : (eligibleCount now (st.entries.take st.cursor) +
        eligibleCount now
          (aging_scan now (st.entries.drop st.cursor) quota len).rest) *
          (st.entries.length + 1) + (st.entries.length + 1) ≤
        eligibleCount now st.entries * (st.entries.length + 1) := by
      calc (eligibleCount now (st.entries.take st.cursor) +
          eligibleCount now
            (aging_scan now (st.entries.drop st.cursor) quota len).rest) *
            (st.entries.length + 1) + (st.entries.length + 1)
          = (eligibleCount now (st.entries.take st.cursor) +
            eligibleCount now
              (aging_scan now (st.entries.drop st.cursor) quota len).rest + 1) *
            (st.entries.length + 1) := by ring
        _ ≤ eligibleCount now st.entries * (st.entries.length + 1) :=
            Nat.mul_le_mul_right _ hkey
    generalize (eligibleCount now (st.entries.take st.cursor) +
        eligibleCount now
          (aging_scan now (st.entries.drop st.cursor) quota len).rest) *
        (st.entries.length + 1) = A at h3 ⊢
    generalize eligibleCount now st.entries * (st.entries.length + 1) = B at h3 ⊢
    split <;> omega
  · split
    · rename_i hpos hend
      rw [if_neg hpos, if_pos hend] at hne
      simp at hne
    · rename_i hpos hend
      have hnil : (aging_scan now (st.entries.drop st.cursor) quota len).collected
          = [] := List.length_eq_zero.mp (by omega)
      have hrid := aging_scan_collected_nil now (st.entries.drop st.cursor)
        quota len hnil
      rw [hrid] at hend ⊢
      rw [List.take_append_drop] at hend ⊢
      have hcur : st.cursor < st.entries.length := by
        simp only [not_le] at hend
        have := Nat.le_add_right st.cursor
          (aging_scan now (st.entries.drop st.cursor) quota len).scanned
        omega
      have hne' : st.entries.drop st.cursor ≠ [] := by
        intro hcon
        have := congrArg List.length hcon
        simp at this
        omega
      have hprog := aging_scan_progress now (st.entries.drop st.cursor)
        quota len hne' hq hlen
      simp only [agingMeasure]
      generalize eligibleCount now st.entries * (st.entries.length + 1) = A
      simp only [not_le] at hend
      omega

/-- Iterating the sweep from any state reaches the `-1` cycle-completion
report within `agingMeasure + 1` calls. -/
theorem aging_never_hangs_aux (now quota len : Nat)
    (hq : 1 ≤ quota) (hlen : 1 ≤ len) :
    ∀ (bound : Nat) (st : aging_queue), agingMeasure now st ≤ bound →
      ∃ k, k ≤ agingMeasure now st + 1 ∧ (-1) ∈ run_aging now quota len k st := by
  intro bound
  induction bound with
  | zero =>
    intro st hst
    by_cases h : (doca_flow_handle_aging now quota len st).1 = -1
    · exact ⟨1, by omega, by simp [run_aging, h]⟩
    · exfalso
      have := handle_aging_measure_lt now quota len st hq hlen h
      omega
  | succ n ih =>
    intro st hst
    by_cases h : (doca_flow_handle_aging now quota len st).1 = -1
    · exact ⟨1, by omega, by simp [run_aging, h]⟩
    · have hlt := handle_aging_measure_lt now quota len st hq hlen h
      obtain ⟨k, hk, hm⟩ := ih (doca_flow_handle_aging now quota len st).2.2
        (by omega)
      refine ⟨k + 1, by omega, ?_⟩
      simp only [run_aging]
      exact List.mem_cons_of_mem _ hm

/-- Claim C2: the aging scan always terminates with per-call work bounded
by the quota (at most `quota` entries are scanned in one call); a call
that returns `0` has still advanced the saved cursor, so the caller can
resume; and from any state, repeated calls reach the `-1` completion
report within a bounded number of calls — the sweep never hangs. -/
theorem aging_quota_bound (now quota len : Nat) (st : aging_queue)
    (hq : 1 ≤ quota) (hlen : 1 ≤ len) :
    (∀ (n : Nat) (es : List aging_entry) (q room : Nat),
        (aging_scan n es q room).scanned ≤ q) ∧
    ((doca_flow_handle_aging now quota len st).1 = 0 →
        st.cursor < ((doca_flow_handle_aging now quota len st).2.2).cursor) ∧
    (∃ k, k ≤ agingMeasure now st + 1 ∧ (-1) ∈ run_aging now quota len k st) := by
  refine ⟨fun n es q room => aging_scan_scanned_le_quota n es q room, ?_,
    aging_never_hangs_aux now quota len hq hlen (agingMeasure now st) st le_rfl⟩
  intro h0
  exact (handle_aging_progress_zero now quota len st hq hlen h0).2.1

/-- Instantiation of `aging_quota_bound` with a unit quota on a concrete
two-entry queue. -/
theorem aging_quota_bound_witness :
    1 ≤ 1 ∧ 1 ≤ 1 ∧
    ((∀ (n : Nat) (es : List aging_entry) (q room : Nat),
        (aging_scan n es q room).scanned ≤ q) ∧
    ((doca_flow_handle_aging 9 1 1
        ⟨[⟨true, 2, 0, false, 3⟩, ⟨false, 0, 0, false, 4⟩], 0⟩).1 = 0 →
      (0 : Nat) <
        ((doca_flow_handle_aging 9 1 1
          ⟨[⟨true, 2, 0, false, 3⟩, ⟨false, 0, 0, false, 4⟩], 0⟩).2.2).cursor) ∧
    (∃ k, k ≤ agingMeasure 9
        ⟨[⟨true, 2, 0, false, 3⟩, ⟨false, 0, 0, false, 4⟩], 0⟩ + 1 ∧
      (-1) ∈ run_aging 9 1 1 k
        ⟨[⟨true, 2, 0, false, 3⟩, ⟨false, 0, 0, false, 4⟩], 0⟩)) :=
  ⟨by decide, by decide,
    aging_quota_bound 9 1 1 ⟨[⟨true, 2, 0, false, 3⟩, ⟨false, 0, 0, false, 4⟩], 0⟩
      (by decide) (by decide)⟩

/-- Claim C9: a multi-byte numeric field value (here an IPv4 address)
stored into a match and read back — including through the encap action
structure — preserves the exact network-byte-order byte sequence. -/
theorem byte_order_round_trip (b0 b1 b2 b3 : Nat) (m : doca_flow_match) :
    ((actions_with_encap (encap_from_match
        (match_set_out_src_ip m (mk_ipv4_addr b0 b1 b2 b3)))).encap.src_ip).bytes
      = [b0, b1, b2, b3] ∧
    (match_set_out_src_ip m (mk_ipv4_addr b0 b1 b2 b3)).out_src_ip.bytes
      = [b0, b1, b2, b3] ∧
    ((actions_with_encap (encap_from_match
        (match_set_out_src_ip m (mk_ipv4_addr b0 b1 b2 b3)))).encap.src_ip).ipType
      = 4 :=
  ⟨rfl, rfl, rfl⟩

/-! ## Engine state machine (claims C3-C8, C10)

Modelled from the spec: the implementations of `doca_flow_init`,
`doca_flow_port_start`, `doca_flow_create_pipe`,
`doca_flow_create_control_pipe`, `doca_flow_pipe_add_entry`,
`doca_flow_control_pipe_add_entry`, `doca_flow_pipe_rm_entry`,
`doca_flow_query`, `doca_flow_destroy_pipe`, `doca_flow_flush_pipe`,
`doca_flow_destroy_port` and `doca_flow_destroy` are missing from the
repository sources (only declarations and documented contracts are
present).  The engine is modelled as a state machine over ports, pipes
and entries per spec sections 3-4 and the header contracts: pipes are
templates owned by a port; entries are queue-affine concrete rules owned
by a pipe; control pipes bound their entry count below 64; pipe `fwd` /
`fwd_miss` edges must keep the pipe graph acyclic; destruction cascades
port → pipe → entry. -/

/-- Model of `enum doca_flow_error_type` from `doca_flow.h`. -/
inductive doca_flow_error_type where
  | DOCA_ERROR_UNKNOWN
  | DOCA_ERROR_UNSUPPORTED
  | DOCA_ERROR_INVALID_PARAM
  | DOCA_ERROR_PIPE_BUILD_ITEM
  | DOCA_ERROR_PIPE_MODIFY_ITEM
  | DOCA_ERROR_PIPE_BUILD_ACTION
  | DOCA_ERROR_PIPE_MODIFY_ACTION
  | DOCA_ERROR_PIPE_BUILD_FWD
  | DOCA_ERROR_FLOW_CREATE
  | DOCA_ERROR_OOM
  | DOCA_ERROR_PORT
  deriving DecidableEq

/-- Structured engine errors of the model; each maps onto the header's
error taxonomy through `EngineError.toErrorType`.  `capacity_exceeded`
is the distinct capacity error of control pipes. -/
inductive EngineError where
  | not_inited
  | already_inited
  | invalid_param
  | port_err
  | fwd_cycle
  | capacity_exceeded
  | not_found
  | unsupported
  deriving DecidableEq

/-- Map a model error onto the header error taxonomy. -/
def EngineError.toErrorType : EngineError → doca_flow_error_type
  | .not_inited => .DOCA_ERROR_UNKNOWN
  | .already_inited => .DOCA_ERROR_UNKNOWN
  | .invalid_param => .DOCA_ERROR_INVALID_PARAM
  | .port_err => .DOCA_ERROR_PORT
  | .fwd_cycle => .DOCA_ERROR_PIPE_BUILD_FWD
  | .capacity_exceeded => .DOCA_ERROR_FLOW_CREATE
  | .not_found => .DOCA_ERROR_UNKNOWN
  | .unsupported => .DOCA_ERROR_UNSUPPORTED

/-- Result of one API call in the model. -/
inductive CallResult where
  | ok (value : Nat)
  | err (e : EngineError)
  deriving DecidableEq

/-- Whether a call succeeded. -/
def CallResult.isOk : CallResult → Bool
  | .ok _ => true
  | .err _ => false

/-- Model of `struct doca_flow_cfg`: global configuration of `doca_flow_init`. -/
structure doca_flow_cfg where
  total_sessions : Nat := 0
  queues : Nat := 0
  is_hairpin : Bool := false
  aging : Bool := false
  deriving DecidableEq

/-- The all-defaults global configuration. -/
def cfg0 : doca_flow_cfg := {}

/-- Model of `struct doca_flow_fwd`: tagged union over `enum doca_flow_fwd_type`
(`next_pipe` pointers are modelled as pipe ids). -/
inductive doca_flow_fwd where
  | fwd_none
  | fwd_rss (rss_flags : Nat) (rss_queues : List Nat) (rss_mark : Nat)
  | fwd_port (port_id : Nat)
  | fwd_pipe (next_pipe : Nat)
  | fwd_drop
  deriving DecidableEq

/-- A pipe as tracked by the engine: a classification template owned by
a port, with hit/miss forward destinations; control pipes take their
match, mask and priority per entry instead. -/
structure doca_flow_pipe where
  id : Nat
  port_id : Nat
  name : String := ""
  is_root : Bool := false
  is_control : Bool := false
  fwd : doca_flow_fwd := .fwd_none
  fwd_miss : Option doca_flow_fwd := none
  deriving DecidableEq

/-- An entry as tracked by the engine: the queue-affine concrete rule,
owning its monitor state (counters, last-seen timestamp, pending-removal
mark).  `id` doubles as the creation-ordered opaque handle. -/
structure doca_flow_pipe_entry where
  id : Nat
  pipe_id : Nat
  queue : Nat
  priority : Nat := 0
  match_value : doca_flow_match := {}
  match_mask : doca_flow_match := {}
  fwd : doca_flow_fwd := .fwd_none
  monitor : doca_flow_monitor := {}
  total_pkts : Nat := 0
  total_bytes : Nat := 0
  last_seen : Nat := 0
  pending_removal : Bool := false
  deriving DecidableEq

/-- Whether the entry's monitor enables the packet/byte counter
(`DOCA_FLOW_MONITOR_COUNT`, bit 2). -/
def entryCountOn (e : doca_flow_pipe_entry) : Bool :=
  e.monitor.flags.testBit 2

/-- Whether the entry's monitor enables aging
(`DOCA_FLOW_MONITOR_AGING`, bit 3). -/
def entryAgingOn (e : doca_flow_pipe_entry) : Bool :=
  e.monitor.flags.testBit 3

/-- Global engine state. -/
structure EngineState where
  inited : Bool := false
  ever_inited : Bool := false
  cfg : Option doca_flow_cfg := none
  ports : List Nat := []
  pipes : List doca_flow_pipe := []
  entries : List doca_flow_pipe_entry := []
  next_pipe_id : Nat := 0
  next_entry_id : Nat := 0
  deriving DecidableEq

/-- The state before `doca_flow_init`. -/
def initState : EngineState := {}

/-! ### The pipe forwarding graph -/

/-- Pipe ids referenced by a forward destination. -/
def fwdTargets : doca_flow_fwd → List Nat
  | .fwd_pipe n => [n]
  | _ => []

/-- Outgoing `fwd`/`fwd_miss` edges of one pipe. -/
def pipeOut (p : doca_flow_pipe) : List Nat :=
  fwdTargets p.fwd ++ (match p.fwd_miss with
    | some f => fwdTargets f
    | none => [])

/-- Look a pipe up by id. -/
def findPipe (pipes : List doca_flow_pipe) (a : Nat) : Option doca_flow_pipe :=
  pipes.find? (fun p => p.id == a)

/-- Successors of node `a` in the pipe graph. -/
def outOf (pipes : List doca_flow_pipe) (a : Nat) : List Nat :=
  match findPipe pipes a with
  | some p => pipeOut p
  | none => []

/-- Fuel-bounded reachability along `fwd`/`fwd_miss` edges. -/
def reachesFuel (pipes : List doca_flow_pipe) : Nat → Nat → Nat → Bool
  | 0, _, _ => false
  | f + 1, a, b => (outOf pipes a).any (fun t => t == b || reachesFuel pipes f t b)

/-- The cycle check: no pipe reaches itself within `pipes.length` steps. -/
def pipeGraphAcyclic (pipes : List doca_flow_pipe) : Bool :=
  pipes.all (fun p => !reachesFuel pipes pipes.length p.id p.id)

/-! ### State-machine helpers -/

/-- Whether a pipe with the given id exists. -/
def pipeExists (st : EngineState) (a : Nat) : Bool :=
  st.pipes.any (fun p => p.id == a)

/-- A forward destination is well-formed when every pipe it references
exists. -/
def fwdValid (st : EngineState) (f : doca_flow_fwd) : Bool :=
  (fwdTargets f).all (fun t => pipeExists st t)

/-- Validity of an optional `fwd_miss` destination. -/
def fwdMissValid (st : EngineState) : Option doca_flow_fwd → Bool
  | none => true
  | some f => fwdValid st f

/-- Number of concrete entries installed on one pipe. -/
def countEntriesOfPipe (st : EngineState) (pid : Nat) : Nat :=
  st.entries.countP (fun e => e.pipe_id == pid)

/-- Whether an entry handle is still tracked. -/
def entryExists (st : EngineState) (eid : Nat) : Bool :=
  st.entries.any (fun e => e.id == eid)

/-- Look an entry up by handle. -/
def findEntry (st : EngineState) (eid : Nat) : Option doca_flow_pipe_entry :=
  st.entries.find? (fun e => e.id == eid)

/-- Model of `doca_flow_query`: snapshot of an entry's counters, or a not-found
error condition. -/
def queryEntry (st : EngineState) (eid : Nat) : Option doca_flow_query_result :=
  (findEntry st eid).map (fun e => ⟨e.total_bytes, e.total_pkts⟩)

/-- The per-entry transition applied by `op_handle_aging` on its queue:
an aging-enabled entry past its inactivity timeout and not yet pending is
marked pending removal. -/
def agingMark (q now : Nat) (e : doca_flow_pipe_entry) : doca_flow_pipe_entry :=
  if e.queue == q && entryAgingOn e && !e.pending_removal &&
      decide (e.last_seen + e.monitor.aging ≤ now) then
    { e with pending_removal := true }
  else e

/-- The per-entry transition applied when a packet hits an entry: the
counters advance when the counter is enabled, and the last-seen
timestamp is refreshed. -/
def hitUpdate (eid bytes now : Nat) (e : doca_flow_pipe_entry) :
    doca_flow_pipe_entry :=
  if e.id == eid then
    { e with
      total_pkts := e.total_pkts + (if entryCountOn e then 1 else 0)
      total_bytes := e.total_bytes + (if entryCountOn e then bytes else 0)
      last_seen := now }
  else e

/-- API calls of the flow engine plus the environment event of a packet
hitting an installed entry (`ev_packet_hit` is not an API call). -/
inductive FlowOp where
  | op_init (cfg : doca_flow_cfg)
  | op_port_start (port_id : Nat)
  | op_create_pipe (name : String) (port_id : Nat) (is_root : Bool)
      (fwd : doca_flow_fwd) (fwd_miss : Option doca_flow_fwd)
  | op_create_control_pipe (port_id : Nat)
  | op_add_entry (queue pipe_id : Nat) (m : doca_flow_match)
      (monitor : doca_flow_monitor) (fwd : doca_flow_fwd) (now : Nat)
  | op_control_add_entry (queue priority pipe_id : Nat)
      (m mask : doca_flow_match) (fwd : doca_flow_fwd) (now : Nat)
  | op_rm_entry (queue entry_id : Nat)
  | op_query (entry_id : Nat)
  | op_handle_aging (queue now : Nat)
  | op_destroy_pipe (port_id pipe_id : Nat)
  | op_flush_pipe (port_id : Nat)
  | op_destroy_port (port_id : Nat)
  | op_destroy
  | ev_packet_hit (entry_id bytes now : Nat)
  deriving DecidableEq

/-- One step of the engine: apply an operation to the state, producing
the successor state and the call result.  Failed calls leave the state
unchanged. -/
def step (st : EngineState) : FlowOp → EngineState × CallResult
  | .op_init c =>
    if st.ever_inited then (st, .err .already_inited)
    else ({ st with inited := true, ever_inited := true, cfg := some c }, .ok 0)
  | .op_port_start pid =>
    if !st.inited then (st, .err .not_inited)
    else if st.ports.contains pid then (st, .err .port_err)
    else ({ st with ports := st.ports ++ [pid] }, .ok 0)
  | .op_create_pipe nm pid root f fm =>
    if !st.inited then (st, .err .not_inited)
    else if !(st.ports.contains pid) then (st, .err .port_err)
    else if !(fwdValid st f && fwdMissValid st fm) then (st, .err .invalid_param)
    else
      let newPipe : doca_flow_pipe :=
        { id := st.next_pipe_id, port_id := pid, name := nm, is_root := root,
          is_control := false, fwd := f, fwd_miss := fm }
      if !pipeGraphAcyclic (st.pipes ++ [newPipe]) then (st, .err .fwd_cycle)
      else
        ({ st with
            pipes := st.pipes ++ [newPipe]
            next_pipe_id := st.next_pipe_id + 1 }, .ok st.next_pipe_id)
  | .op_create_control_pipe pid =>
    if !st.inited then (st, .err .not_inited)
    else if !(st.ports.contains pid) then (st, .err .port_err)
    else
      let newPipe : doca_flow_pipe :=
        { id := st.next_pipe_id, port_id := pid, is_control := true }
      if !pipeGraphAcyclic (st.pipes ++ [newPipe]) then (st, .err .fwd_cycle)
      else
        ({ st with
            pipes := st.pipes ++ [newPipe]
            next_pipe_id := st.next_pipe_id + 1 }, .ok st.next_pipe_id)
  | .op_add_entry q pid m mon f now =>
    if !st.inited then (st, .err .not_inited)
    else
      match findPipe st.pipes pid with
      | none => (st, .err .invalid_param)
      | some p =>
        if p.is_control then (st, .err .unsupported)
        else
          ({ st with
              entries := st.entries ++
                [{ id := st.next_entry_id, pipe_id := pid, queue := q,
                   match_value := m, monitor := mon, fwd := f, last_seen := now }]
              next_entry_id := st.next_entry_id + 1 }, .ok st.next_entry_id)
  | .op_control_add_entry q prio pid m mask f now =>
    if !st.inited then (st, .err .not_inited)
    else
      match findPipe st.pipes pid with
      | none => (st, .err .invalid_param)
      | some p =>
        if !p.is_control then (st, .err .unsupported)
        else if !(countEntriesOfPipe st pid + 1 < 64) then
          (st, .err .capacity_exceeded)
        else
          ({ st with
              entries := st.entries ++
                [{ id := st.next_entry_id, pipe_id := pid, queue := q,
                   priority := prio, match_value := m, match_mask := mask,
                   fwd := f, last_seen := now }]
              next_entry_id := st.next_entry_id + 1 }, .ok st.next_entry_id)
  | .op_rm_entry _q eid =>
    if !st.inited then (st, .err .not_inited)
    else if entryExists st eid then
      ({ st with entries := st.entries.filter (fun e => !(e.id == eid)) }, .ok 0)
    else (st, .err .not_found)
  | .op_query eid =>
    if !st.inited then (st, .err .not_inited)
    else
      match queryEntry st eid with
      | some _ => (st, .ok 0)
      | none => (st, .err .not_found)
  | .op_handle_aging q now =>
    if !st.inited then (st, .err .not_inited)
    else ({ st with entries := st.entries.map (agingMark q now) }, .ok 0)
  | .op_destroy_pipe _pid pid =>
    if !st.inited then (st, .err .not_inited)
    else
      ({ st with
          pipes := st.pipes.filter (fun p => !(p.id == pid))
          entries := st.entries.filter (fun e => !(e.pipe_id == pid)) }, .ok 0)
  | .op_flush_pipe pid =>
    if !st.inited then (st, .err .not_inited)
    else
      let doomed := (st.pipes.filter (fun p => p.port_id == pid)).map
        (fun p => p.id)
      ({ st with
          pipes := st.pipes.filter (fun p => !(p.port_id == pid))
          entries := st.entries.filter (fun e => !(doomed.contains e.pipe_id)) },
       .ok 0)
  | .op_destroy_port pid =>
    if !st.inited then (st, .err .not_inited)
    else
      let doomed := (st.pipes.filter (fun p => p.port_id == pid)).map
        (fun p => p.id)
      ({ st with
          ports := st.ports.filter (fun x => !(x == pid))
          pipes := st.pipes.filter (fun p => !(p.port_id == pid))
          entries := st.entries.filter (fun e => !(doomed.contains e.pipe_id)) },
       .ok 0)
  | .op_destroy =>
    if !st.inited then (st, .err .not_inited)
    else
      ({ st with
          inited := false
          cfg := none
          ports := []
          pipes := []
          entries := [] }, .ok 0)
  | .ev_packet_hit eid bytes now =>
    ({ st with entries := st.entries.map (hitUpdate eid bytes now) }, .ok 0)

/-- Run a list of operations from a state (failed calls are no-ops). -/
def runFrom (st : EngineState) (ops : List FlowOp) : EngineState :=
  ops.foldl (fun s op => (step s op).1) st

/-- Run a list of operations from the pre-init state. -/
def run (ops : List FlowOp) : EngineState :=
  runFrom initState ops

/-- Whether every call in the sequence succeeds. -/
def allOkFrom (st : EngineState) : List FlowOp → Bool
  | [] => true
  | op :: rest => (step st op).2.isOk && allOkFrom (step st op).1 rest

/-- Whether an operation is the global `doca_flow_init` call. -/
def isInitOp : FlowOp → Bool
  | .op_init _ => true
  | _ => false

/-- Whether an operation is an API call of the library (the packet-hit
environment event is not). -/
def isApiOp : FlowOp → Bool
  | .ev_packet_hit _ _ _ => false
  | _ => true

/-- Whether no API call other than `doca_flow_init` occurs before the
first `doca_flow_init` of the sequence. -/
def initFirst : List FlowOp → Bool
  | [] => true
  | op :: rest =>
    if isInitOp op then true
    else if isApiOp op then false
    else initFirst rest

/-- Well-formedness invariant of reachable engine states. -/
structure WF (st : EngineState) : Prop where
  pipes_sorted : st.pipes.Pairwise (fun a b => a.id < b.id)
  pipes_lt : ∀ p ∈ st.pipes, p.id < st.next_pipe_id
  entries_sorted : st.entries.Pairwise (fun a b => a.id < b.id)
  entries_lt : ∀ e ∈ st.entries, e.id < st.next_entry_id
  entry_pipe_live : ∀ e ∈ st.entries, ∃ p ∈ st.pipes, p.id = e.pipe_id
  acyclic : pipeGraphAcyclic st.pipes = true
  control_cap : ∀ p ∈ st.pipes, p.is_control = true →
    countEntriesOfPipe st p.id ≤ 63

/-! ### Generic list facts used by the invariant proofs -/

theorem mem_pairwise_lt_eq {α : Type} (key : α → Nat) {l : List α}
    (hp : l.Pairwise (fun a b => key a < key b)) {a b : α}
    (ha : a ∈ l) (hb : b ∈ l) (hk : key a = key b) : a = b := by
  induction l with
  | nil => exact absurd ha (List.not_mem_nil a)
  | cons x xs ih =>
    rcases List.mem_cons.mp ha with rfl | ha' <;>
      rcases List.mem_cons.mp hb with rfl | hb'
    · rfl
    · exact absurd hk (by have := (List.pairwise_cons.mp hp).1 b hb'; omega)
    · exact absurd hk (by have := (List.pairwise_cons.mp hp).1 a ha'; omega)
    · exact ih (List.pairwise_cons.mp hp).2 ha' hb'

theorem find?_beq_of_mem_sorted {α : Type} (key : α → Nat) {l : List α}
    (hp : l.Pairwise (fun a b => key a < key b)) {a : α} (ha : a ∈ l) :
    l.find? (fun x => key x == key a) = some a := by
  cases hf : l.find? (fun x => key x == key a) with
  | none =>
    rw [List.find?_eq_none] at hf
    have := hf a ha
    simp at this
  | some x =>
    have hxmem := List.mem_of_find?_eq_some hf
    have hxid : key x = key a := by simpa using List.find?_some hf
    have : x = a := mem_pairwise_lt_eq key hp hxmem ha hxid
    rw [this]

theorem find?_map_id_pres {α : Type} (key : α → Nat) (g : α → α)
    (hg : ∀ x, key (g x) = key x) (l : List α) (k : Nat) :
    (l.map g).find? (fun x => key x == k) =
      (l.find? (fun x => key x == k)).map g := by
  induction l with
  | nil => simp
  | cons e es ih =>
    simp only [List.map_cons, List.find?, hg]
    cases h : (key e == k) with
    | true => rfl
    | false => exact ih

theorem nat_contains_iff (l : List Nat) (a : Nat) :
    l.contains a = true ↔ a ∈ l := by
  simp [List.contains]

/-! ### Monotonicity of the cycle check under node removal -/

theorem reachesFuel_mono_fuel (pipes : List doca_flow_pipe) {f f' a b : Nat}
    (hf : f ≤ f') (hr : reachesFuel pipes f a b = true) :
    reachesFuel pipes f' a b = true := by
  induction f' generalizing f a with
  | zero =>
    have : f = 0 := by omega
    subst this
    simp [reachesFuel] at hr
  | succ n ih =>
    cases f with
    | zero => simp [reachesFuel] at hr
    | succ m =>
      simp only [reachesFuel, List.any_eq_true] at hr ⊢
      obtain ⟨t, ht, hor⟩ := hr
      refine ⟨t, ht, ?_⟩
      simp only [Bool.or_eq_true] at hor ⊢
      rcases hor with h1 | h2
      · exact Or.inl h1
      · exact Or.inr (ih (by omega) h2)

theorem findPipe_filter_sub (pipes : List doca_flow_pipe)
    (q : doca_flow_pipe → Bool)
    (hp : pipes.Pairwise (fun a b => a.id < b.id)) (a : Nat)
    (p : doca_flow_pipe) (h : findPipe (pipes.filter q) a = some p) :
    findPipe pipes a = some p := by
  have hmem : p ∈ pipes.filter q := List.mem_of_find?_eq_some h
  have hpa : p.id = a := by simpa using List.find?_some h
  have hmem' : p ∈ pipes := List.mem_of_mem_filter hmem
  have hfind := find?_beq_of_mem_sorted (fun y => y.id) hp hmem'
  rw [findPipe, ← hpa]
  exact hfind

theorem outOf_filter_sub (pipes : List doca_flow_pipe)
    (q : doca_flow_pipe → Bool)
    (hp : pipes.Pairwise (fun a b => a.id < b.id)) (a : Nat) :
    outOf (pipes.filter q) a = outOf pipes a ∨ outOf (pipes.filter q) a = [] := by
  cases hf : findPipe (pipes.filter q) a with
  | none =>
    right
    simp [outOf, hf]
  | some p =>
    left
    have := findPipe_filter_sub pipes q hp a p hf
    simp [outOf, hf, this]

theorem reachesFuel_filter_sub (pipes : List doca_flow_pipe)
    (q : doca_flow_pipe → Bool)
    (hp : pipes.Pairwise (fun a b => a.id < b.id)) {f a b : Nat}
    (hr : reachesFuel (pipes.filter q) f a b = true) :
    reachesFuel pipes f a b = true := by
  induction f generalizing a with
  | zero => simp [reachesFuel] at hr
  | succ n ih =>
    simp only [reachesFuel, List.any_eq_true] at hr ⊢
    obtain ⟨t, ht, hor⟩ := hr
    rcases outOf_filter_sub pipes q hp a with heq | hnil
    · rw [heq] at ht
      refine ⟨t, ht, ?_⟩
      simp only [Bool.or_eq_true] at hor ⊢
      rcases hor with h1 | h2
      · exact Or.inl h1
      · exact Or.inr (ih h2)
    · rw [hnil] at ht
      exact absurd ht (List.not_mem_nil t)

theorem acyclic_filter (pipes : List doca_flow_pipe)
    (q : doca_flow_pipe → Bool)
    (hp : pipes.Pairwise (fun a b => a.id < b.id))
    (hac : pipeGraphAcyclic pipes = true) :
    pipeGraphAcyclic (pipes.filter q) = true := by
  simp only [pipeGraphAcyclic, List.all_eq_true] at hac ⊢
  intro p hpmem
  have hmem' : p ∈ pipes := List.mem_of_mem_filter hpmem
  have hlen : (pipes.filter q).length ≤ pipes.length :=
    List.length_filter_le q pipes
  cases hcon : reachesFuel (pipes.filter q) (pipes.filter q).length p.id p.id with
  | false => simp
  | true =>
    have h1 : reachesFuel (pipes.filter q) pipes.length p.id p.id = true :=
      reachesFuel_mono_fuel _ hlen hcon
    have h2 : reachesFuel pipes pipes.length p.id p.id = true :=
      reachesFuel_filter_sub pipes q hp h1
    have hbase := hac p hmem'
    rw [h2] at hbase
    simp at hbase

/-! ### Invariant preservation -/

theorem agingMark_id (q now : Nat) (e : doca_flow_pipe_entry) :
    (agingMark q now e).id = e.id := by
  unfold agingMark
  split <;> rfl

theorem agingMark_pipe_id (q now : Nat) (e : doca_flow_pipe_entry) :
    (agingMark q now e).pipe_id = e.pipe_id := by
  unfold agingMark
  split <;> rfl

theorem agingMark_counts (q now : Nat) (e : doca_flow_pipe_entry) :
    (agingMark q now e).total_pkts = e.total_pkts ∧
    (agingMark q now e).total_bytes = e.total_bytes := by
  unfold agingMark
  split <;> exact ⟨rfl, rfl⟩

theorem hitUpdate_id (eid bytes now : Nat) (e : doca_flow_pipe_entry) :
    (hitUpdate eid bytes now e).id = e.id := by
  unfold hitUpdate
  split <;> rfl

theorem hitUpdate_pipe_id (eid bytes now : Nat) (e : doca_flow_pipe_entry) :
    (hitUpdate eid bytes now e).pipe_id = e.pipe_id := by
  unfold hitUpdate
  split <;> rfl

theorem hitUpdate_counts (eid bytes now : Nat) (e : doca_flow_pipe_entry) :
    e.total_pkts ≤ (hitUpdate eid bytes now e).total_pkts ∧
    e.total_bytes ≤ (hitUpdate eid bytes now e).total_bytes := by
  unfold hitUpdate
  split
  · simp
  · exact ⟨le_refl _, le_refl _⟩

theorem pairwise_append_one {α : Type} (key : α → Nat) (l : List α) (x : α)
    (n : Nat) (hs : l.Pairwise (fun a b => key a < key b))
    (hlt : ∀ a ∈ l, key a < n) (hx : key x = n) :
    (l ++ [x]).Pairwise (fun a b => key a < key b) := by
  rw [List.pairwise_append]
  refine ⟨hs, List.pairwise_singleton _ _, ?_⟩
  intro a ha b hb
  rw [List.mem_singleton] at hb
  subst hb
  rw [hx]
  exact hlt a ha

theorem count_new_pipe_zero (st : EngineState) (hw : WF st) :
    countEntriesOfPipe st st.next_pipe_id = 0 := by
  rw [countEntriesOfPipe, List.countP_eq_zero]
  intro e he
  obtain ⟨p, hp, hid⟩ := hw.entry_pipe_live e he
  have := hw.pipes_lt p hp
  simp only [beq_iff_eq]
  omega

theorem findPipe_some_mem {pipes : List doca_flow_pipe} {pid : Nat}
    {p : doca_flow_pipe} (hf : findPipe pipes pid = some p) :
    p ∈ pipes ∧ p.id = pid :=
  ⟨List.mem_of_find?_eq_some hf, by simpa using List.find?_some hf⟩

theorem findPipe_mem_unique (st : EngineState) (hw : WF st) {pid : Nat}
    {p : doca_flow_pipe} (hf : findPipe st.pipes pid = some p) :
    ∀ pc ∈ st.pipes, pc.id = pid → pc = p := by
  intro pc hpc hpcid
  obtain ⟨hmem, hid⟩ := findPipe_some_mem hf
  exact mem_pairwise_lt_eq (fun y => y.id) hw.pipes_sorted hpc hmem
    (by show pc.id = p.id; omega)

/-- Transport well-formedness across a step that leaves pipes and
entries unchanged and does not decrease the id counters. -/
theorem WF.carry {st st' : EngineState} (hw : WF st)
    (hp : st'.pipes = st.pipes) (he : st'.entries = st.entries)
    (hnp : st.next_pipe_id ≤ st'.next_pipe_id)
    (hne : st.next_entry_id ≤ st'.next_entry_id) : WF st' := by
  constructor
  · rw [hp]
    exact hw.pipes_sorted
  · intro p hmem
    rw [hp] at hmem
    have := hw.pipes_lt p hmem
    omega
  · rw [he]
    exact hw.entries_sorted
  · intro e hmem
    rw [he] at hmem
    have := hw.entries_lt e hmem
    omega
  · intro e hmem
    rw [he] at hmem
    rw [hp]
    exact hw.entry_pipe_live e hmem
  · rw [hp]
    exact hw.acyclic
  · intro p hmem
    rw [hp] at hmem
    rw [countEntriesOfPipe, he]
    exact hw.control_cap p hmem

/-- Every step of the engine preserves well-formedness. -/
theorem wf_step (st : EngineState) (op : FlowOp) (hw : WF st) :
    WF (step st op).1 := by
  cases op with
  | op_init c =>
    simp only [step]
    split
    · exact hw
    · exact WF.carry hw rfl rfl (le_refl _) (le_refl _)
  | op_port_start pid =>
    simp only [step]
    split
    · exact hw
    · split
      · exact hw
      · exact WF.carry hw rfl rfl (le_refl _) (le_refl _)
  | op_create_pipe nm pid root f fm =>
    simp only [step]
    split
    · exact hw
    · split
      · exact hw
      · split
        · exact hw
        · split
          · exact hw
          · rename_i h1 h2 h3 hacy
            dsimp only
            constructor
            · refine pairwise_append_one (fun y => y.id) st.pipes _
                st.next_pipe_id hw.pipes_sorted hw.pipes_lt ?_
              rfl
            · intro p hp
              show p.id < st.next_pipe_id + 1
              rcases List.mem_append.mp hp with h | h
              · have := hw.pipes_lt p h
                omega
              · rw [List.mem_singleton] at h
                subst h
                simp
            · exact hw.entries_sorted
            · exact hw.entries_lt
            · intro e he
              obtain ⟨p, hpmem, hid⟩ := hw.entry_pipe_live e he
              exact ⟨p, List.mem_append_left _ hpmem, hid⟩
            · simpa using hacy
            · intro p hp hctl
              have hcount : countEntriesOfPipe st p.id ≤ 63 := by
                rcases List.mem_append.mp hp with h | h
                · exact hw.control_cap p h hctl
                · rw [List.mem_singleton] at h
                  subst h
                  simp at hctl
              rw [countEntriesOfPipe] at hcount ⊢
              exact hcount
  | op_create_control_pipe pid =>
    simp only [step]
    split
    · exact hw
    · split
      · exact hw
      · split
        · exact hw
        · rename_i h1 h2 hacy
          dsimp only
          constructor
          · refine pairwise_append_one (fun y => y.id) st.pipes _
              st.next_pipe_id hw.pipes_sorted hw.pipes_lt ?_
            rfl
          · intro p hp
            show p.id < st.next_pipe_id + 1
            rcases List.mem_append.mp hp with h | h
            · have := hw.pipes_lt p h
              omega
            · rw [List.mem_singleton] at h
              subst h
              simp
          · exact hw.entries_sorted
          · exact hw.entries_lt
          · intro e he
            obtain ⟨p, hpmem, hid⟩ := hw.entry_pipe_live e he
            exact ⟨p, List.mem_append_left _ hpmem, hid⟩
          · simpa using hacy
          · intro p hp hctl
            rcases List.mem_append.mp hp with h | h
            · have hcount := hw.control_cap p h hctl
              rw [countEntriesOfPipe] at hcount ⊢
              exact hcount
            · rw [List.mem_singleton] at h
              subst h
              have h0 := count_new_pipe_zero st hw
              rw [countEntriesOfPipe] at h0 ⊢
              dsimp only
              omega
  | op_add_entry q pid m mon f now =>
    simp only [step]
    split
    · exact hw
    · split
      · exact hw
      · rename_i p hfp
        split
        · exact hw
        · rename_i hnotctl
          dsimp only
          obtain ⟨hpmem, hpid⟩ := findPipe_some_mem hfp
          constructor
          · exact hw.pipes_sorted
          · exact hw.pipes_lt
          · refine pairwise_append_one (fun y => y.id) st.entries _
              st.next_entry_id hw.entries_sorted hw.entries_lt ?_
            rfl
          · intro e he
            show e.id < st.next_entry_id + 1
            rcases List.mem_append.mp he with h | h
            · have := hw.entries_lt e h
              omega
            · rw [List.mem_singleton] at h
              subst h
              simp
          · intro e he
            rcases List.mem_append.mp he with h | h
            · exact hw.entry_pipe_live e h
            · rw [List.mem_singleton] at h
              subst h
              exact ⟨p, hpmem, hpid⟩
          · exact hw.acyclic
          · intro pc hpc hctl
            have hcount := hw.control_cap pc hpc hctl
            rw [countEntriesOfPipe] at hcount ⊢
            dsimp only
            rw [List.countP_append]
            by_cases hceq : pc.id = pid
            · exfalso
              have huniq := findPipe_mem_unique st hw hfp pc hpc hceq
              rw [huniq] at hctl
              exact hnotctl hctl
            · have hb : (pid == pc.id) = false := by
                simp only [beq_eq_false_iff_ne, ne_eq]
                omega
              simp [hb]
              omega
  | op_control_add_entry q prio pid m mask f now =>
    simp only [step]
    split
    · exact hw
    · split
      · exact hw
      · rename_i p hfp
        split
        · exact hw
        · split
          · exact hw
          · rename_i hctlp hcap
            dsimp only
            obtain ⟨hpmem, hpid⟩ := findPipe_some_mem hfp
            constructor
            · exact hw.pipes_sorted
            · exact hw.pipes_lt
            · refine pairwise_append_one (fun y => y.id) st.entries _
                st.next_entry_id hw.entries_sorted hw.entries_lt ?_
              rfl
            · intro e he
              show e.id < st.next_entry_id + 1
              rcases List.mem_append.mp he with h | h
              · have := hw.entries_lt e h
                omega
              · rw [List.mem_singleton] at h
                subst h
                simp
            · intro e he
              rcases List.mem_append.mp he with h | h
              · exact hw.entry_pipe_live e h
              · rw [List.mem_singleton] at h
                subst h
                exact ⟨p, hpmem, hpid⟩
            · exact hw.acyclic
            · intro pc hpc hctl
              have hcount := hw.control_cap pc hpc hctl
              rw [countEntriesOfPipe] at hcount ⊢
              dsimp only
              rw [List.countP_append]
              by_cases hceq : pc.id = pid
              · have hlt : countEntriesOfPipe st pid < 63 := by
                  simpa using hcap
                rw [countEntriesOfPipe] at hlt
                have hb : (pid == pc.id) = true := by
                  simp only [beq_iff_eq]
                  omega
                simp [hb]
                rw [hceq]
                omega
              · have hb : (pid == pc.id) = false := by
                  simp only [beq_eq_false_iff_ne, ne_eq]
                  omega
                simp [hb]
                omega
  | op_rm_entry q eid =>
    simp only [step]
    split
    · exact hw
    · split
      · dsimp only
        constructor
        · exact hw.pipes_sorted
        · exact hw.pipes_lt
        · exact hw.entries_sorted.filter _
        · intro e he
          exact hw.entries_lt e (List.mem_of_mem_filter he)
        · intro e he
          exact hw.entry_pipe_live e (List.mem_of_mem_filter he)
        · exact hw.acyclic
        · intro p hp hctl
          have hcount := hw.control_cap p hp hctl
          rw [countEntriesOfPipe] at hcount ⊢
          dsimp only
          exact le_trans (List.Sublist.countP_le _ (List.filter_sublist _)) hcount
      · exact hw
  | op_query eid =>
    simp only [step]
    split
    · exact hw
    · split
      · exact hw
      · exact hw
  | op_handle_aging q now =>
    simp only [step]
    split
    · exact hw
    · dsimp only
      constructor
      · exact hw.pipes_sorted
      · exact hw.pipes_lt
      · rw [List.pairwise_map]
        simp only [agingMark_id]
        exact hw.entries_sorted
      · intro e he
        obtain ⟨x, hx, rfl⟩ := List.mem_map.mp he
        rw [agingMark_id]
        exact hw.entries_lt x hx
      · intro e he
        obtain ⟨x, hx, rfl⟩ := List.mem_map.mp he
        rw [agingMark_pipe_id]
        exact hw.entry_pipe_live x hx
      · exact hw.acyclic
      · intro p hp hctl
        have hcount := hw.control_cap p hp hctl
        rw [countEntriesOfPipe] at hcount ⊢
        dsimp only
        rw [List.countP_map]
        have hfun : ((fun e : doca_flow_pipe_entry => e.pipe_id == p.id) ∘
            agingMark q now) = (fun e => e.pipe_id == p.id) := by
          funext e
          simp [Function.comp, agingMark_pipe_id]
        rw [hfun]
        exact hcount
  | op_destroy_pipe prt pid =>
    simp only [step]
    split
    · exact hw
    · dsimp only
      constructor
      · exact hw.pipes_sorted.filter _
      · intro p hp
        exact hw.pipes_lt p (List.mem_of_mem_filter hp)
      · exact hw.entries_sorted.filter _
      · intro e he
        exact hw.entries_lt e (List.mem_of_mem_filter he)
      · intro e he
        rw [List.mem_filter] at he
        obtain ⟨hemem, hcond⟩ := he
        obtain ⟨p, hpmem, hid⟩ := hw.entry_pipe_live e hemem
        refine ⟨p, ?_, hid⟩
        rw [List.mem_filter]
        refine ⟨hpmem, ?_⟩
        simp only [Bool.not_eq_eq_eq_not, Bool.not_true, beq_eq_false_iff_ne,
          ne_eq] at hcond ⊢
        omega
      · exact acyclic_filter st.pipes _ hw.pipes_sorted hw.acyclic
      · intro p hp hctl
        have hcount := hw.control_cap p (List.mem_of_mem_filter hp) hctl
        rw [countEntriesOfPipe] at hcount ⊢
        dsimp only
        exact le_trans (List.Sublist.countP_le _ (List.filter_sublist _)) hcount
  | op_flush_pipe pid =>
    simp only [step]
    split
    · exact hw
    · dsimp only
      constructor
      · exact hw.pipes_sorted.filter _
      · intro p hp
        exact hw.pipes_lt p (List.mem_of_mem_filter hp)
      · exact hw.entries_sorted.filter _
      · intro e he
        exact hw.entries_lt e (List.mem_of_mem_filter he)
      · intro e he
        rw [List.mem_filter] at he
        obtain ⟨hemem, hcond⟩ := he
        obtain ⟨p, hpmem, hid⟩ := hw.entry_pipe_live e hemem
        refine ⟨p, ?_, hid⟩
        rw [List.mem_filter]
        refine ⟨hpmem, ?_⟩
        by_cases hport : p.port_id = pid
        · exfalso
          have hdo : e.pipe_id ∈ (st.pipes.filter
              (fun x => x.port_id == pid)).map (fun x => x.id) := by
            rw [List.mem_map]
            exact ⟨p, List.mem_filter.mpr ⟨hpmem, by simp [hport]⟩, hid⟩
          have hcont := (nat_contains_iff _ _).mpr hdo
          rw [hcont] at hcond
          simp at hcond
        · simp [hport]
      · exact acyclic_filter st.pipes _ hw.pipes_sorted hw.acyclic
      · intro p hp hctl
        have hcount := hw.control_cap p (List.mem_of_mem_filter hp) hctl
        rw [countEntriesOfPipe] at hcount ⊢
        dsimp only
        exact le_trans (List.Sublist.countP_le _ (List.filter_sublist _)) hcount
  | op_destroy_port pid =>
    simp only [step]
    split
    · exact hw
    · dsimp only
      constructor
      · exact hw.pipes_sorted.filter _
      · intro p hp
        exact hw.pipes_lt p (List.mem_of_mem_filter hp)
      · exact hw.entries_sorted.filter _
      · intro e he
        exact hw.entries_lt e (List.mem_of_mem_filter he)
      · intro e he
        rw [List.mem_filter] at he
        obtain ⟨hemem, hcond⟩ := he
        obtain ⟨p, hpmem, hid⟩ := hw.entry_pipe_live e hemem
        refine ⟨p, ?_, hid⟩
        rw [List.mem_filter]
        refine ⟨hpmem, ?_⟩
        by_cases hport : p.port_id = pid
        · exfalso
          have hdo : e.pipe_id ∈ (st.pipes.filter
              (fun x => x.port_id == pid)).map (fun x => x.id) := by
            rw [List.mem_map]
            exact ⟨p, List.mem_filter.mpr ⟨hpmem, by simp [hport]⟩, hid⟩
          have hcont := (nat_contains_iff _ _).mpr hdo
          rw [hcont] at hcond
          simp at hcond
        · simp [hport]
      · exact acyclic_filter st.pipes _ hw.pipes_sorted hw.acyclic
      · intro p hp hctl
        have hcount := hw.control_cap p (List.mem_of_mem_filter hp) hctl
        rw [countEntriesOfPipe] at hcount ⊢
        dsimp only
        exact le_trans (List.Sublist.countP_le _ (List.filter_sublist _)) hcount
  | op_destroy =>
    simp only [step]
    split
    · exact hw
    · dsimp only
      constructor
      · exact List.Pairwise.nil
      · intro p hp
        exact absurd hp (List.not_mem_nil p)
      · exact List.Pairwise.nil
      · intro e he
        exact absurd he (List.not_mem_nil e)
      · intro e he
        exact absurd he (List.not_mem_nil e)
      · rfl
      · intro p hp
        exact absurd hp (List.not_mem_nil p)
  | ev_packet_hit eid bytes now =>
    simp only [step]
    constructor
    · exact hw.pipes_sorted
    · exact hw.pipes_lt
    · rw [List.pairwise_map]
      simp only [hitUpdate_id]
      exact hw.entries_sorted
    · intro e he
      obtain ⟨x, hx, rfl⟩ := List.mem_map.mp he
      rw [hitUpdate_id]
      exact hw.entries_lt x hx
    · intro e he
      obtain ⟨x, hx, rfl⟩ := List.mem_map.mp he
      rw [hitUpdate_pipe_id]
      exact hw.entry_pipe_live x hx
    · exact hw.acyclic
    · intro p hp hctl
      have hcount := hw.control_cap p hp hctl
      rw [countEntriesOfPipe] at hcount ⊢
      dsimp only
      rw [List.countP_map]
      have hfun : ((fun e : doca_flow_pipe_entry => e.pipe_id == p.id) ∘
          hitUpdate eid bytes now) = (fun e => e.pipe_id == p.id) := by
        funext e
        simp [Function.comp, hitUpdate_pipe_id]
      rw [hfun]
      exact hcount

/-- The pre-init state is well-formed. -/
theorem wf_initState : WF initState := by
  constructor
  · exact List.Pairwise.nil
  · intro p hp
    exact absurd hp (List.not_mem_nil p)
  · exact List.Pairwise.nil
  · intro e he
    exact absurd he (List.not_mem_nil e)
  · intro e he
    exact absurd he (List.not_mem_nil e)
  · rfl
  · intro p hp
    exact absurd hp (List.not_mem_nil p)

/-- Every state run from a prefix of operations is well-formed. -/
theorem wf_runFrom (st : EngineState) (hw : WF st) (ops : List FlowOp) :
    WF (runFrom st ops) := by
  induction ops generalizing st with
  | nil => exact hw
  | cons op rest ih => exact ih (step st op).1 (wf_step st op hw)

/-- Every reachable engine state is well-formed. -/
theorem wf_run (ops : List FlowOp) : WF (run ops) :=
  wf_runFrom initState wf_initState ops

/-! ### Step characterizations used by the claims -/

theorem step_flush_eq (st : EngineState) (pid : Nat) (h : st.inited = true) :
    step st (.op_flush_pipe pid) =
      ({ st with
          pipes := st.pipes.filter (fun p => !(p.port_id == pid))
          entries := st.entries.filter (fun e =>
            !(((st.pipes.filter (fun p => p.port_id == pid)).map
              (fun p => p.id)).contains e.pipe_id)) }, .ok 0) := by
  have hni : ¬ ((!st.inited) = true) := by simp [h]
  simp only [step]
  rw [if_neg hni]

theorem step_destroy_port_eq (st : EngineState) (pid : Nat) (h : st.inited = true) :
    step st (.op_destroy_port pid) =
      ({ st with
          ports := st.ports.filter (fun x => !(x == pid))
          pipes := st.pipes.filter (fun p => !(p.port_id == pid))
          entries := st.entries.filter (fun e =>
            !(((st.pipes.filter (fun p => p.port_id == pid)).map
              (fun p => p.id)).contains e.pipe_id)) }, .ok 0) := by
  have hni : ¬ ((!st.inited) = true) := by simp [h]
  simp only [step]
  rw [if_neg hni]

/-- Claim C6: the pipe graph formed by `fwd`/`fwd_miss` next-pipe edges
is acyclic in every reachable state, and a `doca_flow_create_pipe` call
whose forward assignment would close a cycle fails with the
forward-build error at creation time, leaving the state unchanged
instead of creating the pipe. -/
theorem acyclic_forwarding
    (ops : List FlowOp) (st : EngineState) (nm : String) (pid : Nat)
    (root : Bool) (f : doca_flow_fwd) (fm : Option doca_flow_fwd)
    (h1 : st.inited = true) (h2 : st.ports.contains pid = true)
    (h3 : (fwdValid st f && fwdMissValid st fm) = true)
    (h4 : pipeGraphAcyclic (st.pipes ++
      [{ id := st.next_pipe_id, port_id := pid, name := nm, is_root := root,
         is_control := false, fwd := f, fwd_miss := fm }]) = false) :
    pipeGraphAcyclic (run ops).pipes = true ∧
    step st (.op_create_pipe nm pid root f fm) = (st, .err .fwd_cycle) := by
  refine ⟨(wf_run ops).acyclic, ?_⟩
  have hn1 : ¬ ((!st.inited) = true) := by simp [h1]
  have hn2 : ¬ ((!st.ports.contains pid) = true) := by rw [h2]; simp
  have hn3 : ¬ ((!(fwdValid st f && fwdMissValid st fm)) = true) := by
    rw [h3]
    simp
  simp only [step]
  rw [if_neg hn1, if_neg hn2, if_neg hn3, if_pos (by simp [h4])]

/-- The single pipe of the concrete cycle scenario: pipe 5 forwards to
the id 7 that the next created pipe will receive. -/
def pipeCyc : doca_flow_pipe :=
  { id := 5
    port_id := 0
    name := "a"
    is_root := false
    is_control := false
    fwd := .fwd_pipe 7
    fwd_miss := none }

/-- A concrete state in which creating pipe 7 with a forward edge back
to pipe 5 would close the cycle 5 -> 7 -> 5. -/
def stCyc : EngineState :=
  { inited := true
    ever_inited := true
    cfg := none
    ports := [0]
    pipes := [pipeCyc]
    entries := []
    next_pipe_id := 7
    next_entry_id := 0 }

/-- Instantiation of `acyclic_forwarding`: a forward assignment closing
the two-pipe cycle 5 → 7 → 5 is rejected. -/
theorem acyclic_forwarding_witness :
    stCyc.inited = true ∧
    stCyc.ports.contains 0 = true ∧
    (fwdValid stCyc (.fwd_pipe 5) && fwdMissValid stCyc none) = true ∧
    (pipeGraphAcyclic (run []).pipes = true ∧
     step stCyc (.op_create_pipe "b" 0 false (.fwd_pipe 5) none) =
       (stCyc, .err .fwd_cycle)) :=
  ⟨by decide, by decide, by decide,
    acyclic_forwarding [] stCyc "b" 0 false (.fwd_pipe 5) none
      (by decide) (by decide) (by decide) (by decide)⟩

/-- Claim C7: destruction cascades along the ownership tree: in every
reachable state no entry references a missing pipe; destroying a port
removes every pipe bound to it and leaves no entry dangling;
`doca_flow_flush_pipe` tears down every pipe of the port and every
entry owned by those pipes; and flushing a port that has no pipes is a
no-op. -/
theorem destruction_cascades :
    (∀ ops : List FlowOp, ∀ e ∈ (run ops).entries,
       ∃ p ∈ (run ops).pipes, p.id = e.pipe_id) ∧
    (∀ (st : EngineState) (pid : Nat), WF st → st.inited = true →
       (∀ p ∈ (step st (.op_destroy_port pid)).1.pipes, p.port_id ≠ pid) ∧
       (∀ e ∈ (step st (.op_destroy_port pid)).1.entries,
          ∃ p ∈ (step st (.op_destroy_port pid)).1.pipes, p.id = e.pipe_id)) ∧
    (∀ (st : EngineState) (pid : Nat), WF st → st.inited = true →
       (∀ p ∈ (step st (.op_flush_pipe pid)).1.pipes, p.port_id ≠ pid) ∧
       (∀ e ∈ (step st (.op_flush_pipe pid)).1.entries,
          ∃ p ∈ (step st (.op_flush_pipe pid)).1.pipes, p.id = e.pipe_id) ∧
       (∀ e ∈ (step st (.op_flush_pipe pid)).1.entries,
          ∀ p ∈ st.pipes, p.id = e.pipe_id → p.port_id ≠ pid)) ∧
    (∀ (st : EngineState) (pid : Nat), st.inited = true →
       (∀ p ∈ st.pipes, p.port_id ≠ pid) →
       (step st (.op_flush_pipe pid)).1 = st) := by
  refine ⟨fun ops => (wf_run ops).entry_pipe_live, ?_, ?_, ?_⟩
  · intro st pid hw h
    constructor
    · intro p hp
      rw [step_destroy_port_eq st pid h] at hp
      dsimp only at hp
      rw [List.mem_filter] at hp
      have := hp.2
      simp at this
      exact this
    · exact (wf_step st (.op_destroy_port pid) hw).entry_pipe_live
  · intro st pid hw h
    refine ⟨?_, (wf_step st (.op_flush_pipe pid) hw).entry_pipe_live, ?_⟩
    · intro p hp
      rw [step_flush_eq st pid h] at hp
      dsimp only at hp
      rw [List.mem_filter] at hp
      have := hp.2
      simp at this
      exact this
    · intro e he p hpmem hid hport
      rw [step_flush_eq st pid h] at he
      dsimp only at he
      rw [List.mem_filter] at he
      have hcond := he.2
      have hdo : e.pipe_id ∈ (st.pipes.filter
          (fun x => x.port_id == pid)).map (fun x => x.id) := by
        rw [List.mem_map]
        exact ⟨p, List.mem_filter.mpr ⟨hpmem, by simp [hport]⟩, hid⟩
      have hcont := (nat_contains_iff _ _).mpr hdo
      rw [hcont] at hcond
      simp at hcond
  · intro st pid h hnone
    rw [step_flush_eq st pid h]
    dsimp only
    have h2 : st.pipes.filter (fun p => p.port_id == pid) = [] := by
      rw [List.filter_eq_nil_iff]
      intro p hp
      simp [hnone p hp]
    have h1 : st.pipes.filter (fun p => !(p.port_id == pid)) = st.pipes := by
      rw [List.filter_eq_self]
      intro p hp
      simp [hnone p hp]
    rw [h1, h2]
    have h3 : st.entries.filter (fun e =>
        !((([] : List doca_flow_pipe).map (fun p => p.id)).contains e.pipe_id)) =
        st.entries := by
      rw [List.filter_eq_self]
      intro e he
      simp [List.contains]
    rw [h3]

/-- The concrete setup run for the destruction scenario: port 3 with
one pipe and one entry on it. -/
def opsC7 : List FlowOp :=
  [.op_init cfg0, .op_port_start 3,
   .op_create_pipe "p" 3 true .fwd_drop none,
   .op_add_entry 0 0 match0 monitor0 .fwd_drop 0]

/-- Instantiation of `destruction_cascades` on a concrete run: port 3
holds one pipe and one entry; destroying the port and flushing its
pipes both tear everything down, and a flush of pipe-less port 9 is a
no-op. -/
theorem destruction_cascades_witness :
    WF (run opsC7) ∧
    (run opsC7).inited = true ∧
    (∀ p ∈ (run opsC7).pipes, p.port_id ≠ 9) ∧
    ((∀ p ∈ (step (run opsC7) (.op_destroy_port 3)).1.pipes,
        p.port_id ≠ 3) ∧
     (∀ e ∈ (step (run opsC7) (.op_destroy_port 3)).1.entries,
        ∃ p ∈ (step (run opsC7) (.op_destroy_port 3)).1.pipes,
          p.id = e.pipe_id)) ∧
    ((∀ p ∈ (step (run opsC7) (.op_flush_pipe 3)).1.pipes,
        p.port_id ≠ 3) ∧
     (∀ e ∈ (step (run opsC7) (.op_flush_pipe 3)).1.entries,
        ∃ p ∈ (step (run opsC7) (.op_flush_pipe 3)).1.pipes,
          p.id = e.pipe_id) ∧
     (∀ e ∈ (step (run opsC7) (.op_flush_pipe 3)).1.entries,
        ∀ p ∈ (run opsC7).pipes, p.id = e.pipe_id → p.port_id ≠ 3)) ∧
    (step (run opsC7) (.op_flush_pipe 9)).1 = run opsC7 :=
  ⟨wf_run _, by decide, by decide,
    destruction_cascades.2.1 _ 3 (wf_run _) (by decide),
    destruction_cascades.2.2.1 _ 3 (wf_run _) (by decide),
    destruction_cascades.2.2.2 _ 9 (by decide) (by decide)⟩

/-- Claim C3 (amended): every control pipe is capacity-bounded to fewer
than 64 concrete entries, i.e. at most 63; for a control pipe already
holding the 63-entry limit, the next
`doca_flow_control_pipe_add_entry` call — the 64th insert — fails with
the distinct capacity-exceeded error, no existing entry is evicted (the
state is unchanged) and all previously inserted entries remain
queryable. -/
theorem control_pipe_capacity
    (ops : List FlowOp) (st : EngineState) (q prio pid : Nat)
    (m mask : doca_flow_match) (f : doca_flow_fwd) (now : Nat)
    (p : doca_flow_pipe)
    (h1 : st.inited = true)
    (h3 : findPipe st.pipes pid = some p)
    (h4 : p.is_control = true)
    (h2 : 63 ≤ countEntriesOfPipe st pid) :
    (∀ ps ∈ (run ops).pipes, ps.is_control = true →
       countEntriesOfPipe (run ops) ps.id < 64) ∧
    step st (.op_control_add_entry q prio pid m mask f now) =
      (st, .err .capacity_exceeded) ∧
    (∀ eid, queryEntry
        ((step st (.op_control_add_entry q prio pid m mask f now)).1) eid =
      queryEntry st eid) := by
  have hstep : step st (.op_control_add_entry q prio pid m mask f now) =
      (st, .err .capacity_exceeded) := by
    have hn1 : ¬ ((!st.inited) = true) := by simp [h1]
    simp only [step]
    rw [if_neg hn1, h3]
    dsimp only
    rw [if_neg (by rw [h4]; simp), if_pos (by simp; omega)]
  refine ⟨?_, hstep, ?_⟩
  · intro ps hps hctl
    have := (wf_run ops).control_cap ps hps hctl
    omega
  · intro eid
    rw [hstep]

set_option maxRecDepth 40000

/-- Counterexample to claim C3 as stated: against the header's `<64`
bound the claim's concrete failure point is off by one.  From an empty
control pipe, 63 inserts succeed and the 64th insert — not the 65th —
already returns the capacity error, so a control pipe holding 64
entries is unreachable. -/
theorem control_pipe_capacity_counterexample :
    allOkFrom initState
      ([.op_init cfg0, .op_port_start 0, .op_create_control_pipe 0] ++
        List.replicate 63
          (.op_control_add_entry 0 5 0 match0 match0 .fwd_drop 0)) = true ∧
    (step (run ([.op_init cfg0, .op_port_start 0, .op_create_control_pipe 0] ++
        List.replicate 63
          (.op_control_add_entry 0 5 0 match0 match0 .fwd_drop 0)))
      (.op_control_add_entry 0 5 0 match0 match0 .fwd_drop 0)).2 =
      .err .capacity_exceeded := by
  constructor
  · decide
  · decide

/-- Instantiation of `control_pipe_capacity` at the concrete
63-entry control pipe reached by the counterexample run. -/
theorem control_pipe_capacity_witness :
    (run ([.op_init cfg0, .op_port_start 0, .op_create_control_pipe 0] ++
      List.replicate 63
        (.op_control_add_entry 0 5 0 match0 match0 .fwd_drop 0))).inited
      = true ∧
    63 ≤ countEntriesOfPipe
      (run ([.op_init cfg0, .op_port_start 0, .op_create_control_pipe 0] ++
        List.replicate 63
          (.op_control_add_entry 0 5 0 match0 match0 .fwd_drop 0))) 0 ∧
    step (run ([.op_init cfg0, .op_port_start 0, .op_create_control_pipe 0] ++
        List.replicate 63
          (.op_control_add_entry 0 5 0 match0 match0 .fwd_drop 0)))
      (.op_control_add_entry 7 9 0 match0 match0 .fwd_drop 0) =
      (run ([.op_init cfg0, .op_port_start 0, .op_create_control_pipe 0] ++
        List.replicate 63
          (.op_control_add_entry 0 5 0 match0 match0 .fwd_drop 0)),
       .err .capacity_exceeded) :=
  ⟨by decide, by decide,
    (control_pipe_capacity [] _ 7 9 0 match0 match0 .fwd_drop 0
      { id := 0, port_id := 0, is_control := true }
      (by decide) (by decide) (by decide) (by decide)).2.1⟩

/-- Claim C5: removal of an entry handle is idempotent: the first
`doca_flow_pipe_rm_entry` call on a tracked handle (whether or not the
entry is already marked pending removal by an aging sweep) succeeds and
releases the entry together with its monitor state; every subsequent
removal of the same handle fails benignly with the not-found error and
leaves the state unchanged. -/
theorem idempotent_removal (st : EngineState) (q1 q2 eid : Nat)
    (h1 : st.inited = true) (h2 : entryExists st eid = true) :
    (step st (.op_rm_entry q1 eid)).2 = .ok 0 ∧
    entryExists (step st (.op_rm_entry q1 eid)).1 eid = false ∧
    step (step st (.op_rm_entry q1 eid)).1 (.op_rm_entry q2 eid) =
      ((step st (.op_rm_entry q1 eid)).1, .err .not_found) := by
  have hn1 : ¬ ((!st.inited) = true) := by simp [h1]
  have hstep1 : step st (.op_rm_entry q1 eid) =
      ({ st with entries := st.entries.filter (fun e => !(e.id == eid)) },
       .ok 0) := by
    simp only [step]
    rw [if_neg hn1, if_pos h2]
  have hex : entryExists
      ({ st with entries := st.entries.filter (fun e => !(e.id == eid)) } :
        EngineState) eid = false := by
    rw [entryExists]
    dsimp only
    rw [List.any_eq_false]
    intro e he
    rw [List.mem_filter] at he
    simpa using he.2
  refine ⟨by rw [hstep1], by rw [hstep1]; exact hex, ?_⟩
  rw [hstep1]
  dsimp only
  simp only [step]
  rw [if_neg (by simp [h1] :
    ¬ ((!({ st with entries := st.entries.filter (fun e => !(e.id == eid)) } :
      EngineState).inited) = true))]
  rw [if_neg (by rw [hex]; simp)]

/-- The concrete entry for the removal scenario: already marked pending
removal by an aging sweep. -/
def entryRm : doca_flow_pipe_entry :=
  { id := 4
    pipe_id := 2
    queue := 0
    pending_removal := true }

/-- A concrete state tracking `entryRm` on pipe 2 of port 1. -/
def stRm : EngineState :=
  { inited := true
    ever_inited := true
    cfg := none
    ports := [1]
    pipes := [{ id := 2, port_id := 1 }]
    entries := [entryRm]
    next_pipe_id := 3
    next_entry_id := 5 }

/-- Instantiation of `idempotent_removal` on an entry already marked
pending removal by an aging sweep. -/
theorem idempotent_removal_witness :
    stRm.inited = true ∧ entryExists stRm 4 = true ∧
    ((step stRm (.op_rm_entry 0 4)).2 = .ok 0 ∧
     entryExists (step stRm (.op_rm_entry 0 4)).1 4 = false ∧
     step (step stRm (.op_rm_entry 0 4)).1 (.op_rm_entry 8 4) =
       ((step stRm (.op_rm_entry 0 4)).1, .err .not_found)) :=
  ⟨by decide, by decide, idempotent_removal stRm 0 8 4 (by decide) (by decide)⟩

/-! ### Initialization ordering (claim C10) -/

theorem isInitOp_eq (op : FlowOp) (h : isInitOp op = true) :
    ∃ c, op = .op_init c := by
  cases op <;> first
    | exact ⟨_, rfl⟩
    | simp [isInitOp] at h

theorem not_api_eq (op : FlowOp) (h : isApiOp op = false) :
    ∃ a b c, op = .ev_packet_hit a b c := by
  cases op <;> first
    | exact ⟨_, _, _, rfl⟩
    | simp [isApiOp] at h

theorem ever_inited_mono (st : EngineState) (op : FlowOp)
    (h : st.ever_inited = true) : (step st op).1.ever_inited = true := by
  cases op <;> simp only [step] <;> (repeat' split) <;> exact h

theorem init_requires_fresh (st : EngineState) (c : doca_flow_cfg)
    (h : st.ever_inited = true) :
    step st (.op_init c) = (st, .err .already_inited) := by
  simp only [step]
  rw [if_pos h]

theorem api_requires_init (st : EngineState) (op : FlowOp)
    (h : st.inited = false) (hapi : isApiOp op = true)
    (hni : isInitOp op = false) :
    step st op = (st, .err .not_inited) := by
  cases op <;> first
    | (simp only [step]; rw [if_pos (by simp [h])])
    | (simp [isInitOp] at hni
       done)
    | simp [isApiOp] at hapi

theorem init_count_zero (st : EngineState) (ops : List FlowOp)
    (h : st.ever_inited = true) (hok : allOkFrom st ops = true) :
    ops.countP isInitOp = 0 := by
  induction ops generalizing st with
  | nil => simp
  | cons op rest ih =>
    simp only [allOkFrom, Bool.and_eq_true] at hok
    obtain ⟨h1, h2⟩ := hok
    have hni : isInitOp op = false := by
      cases hni : isInitOp op with
      | false => rfl
      | true =>
        exfalso
        obtain ⟨c, rfl⟩ := isInitOp_eq op hni
        rw [init_requires_fresh st c h] at h1
        simp [CallResult.isOk] at h1
    rw [List.countP_cons, hni]
    have := ih (step st op).1 (ever_inited_mono st op h) h2
    simp [this]

theorem init_first_aux (st : EngineState) (ops : List FlowOp)
    (hok : allOkFrom st ops = true) (hin : st.inited = false)
    (hev : st.ever_inited = false) :
    initFirst ops = true ∧ ops.countP isInitOp ≤ 1 := by
  induction ops generalizing st with
  | nil => exact ⟨rfl, by simp⟩
  | cons op rest ih =>
    simp only [allOkFrom, Bool.and_eq_true] at hok
    obtain ⟨h1, h2⟩ := hok
    by_cases hi : isInitOp op = true
    · obtain ⟨c, rfl⟩ := isInitOp_eq op hi
      have hstep : step st (.op_init c) =
          ({ st with inited := true, ever_inited := true, cfg := some c },
           .ok 0) := by
        simp only [step]
        rw [if_neg (by simp [hev])]
      have hcnt : rest.countP isInitOp = 0 := by
        refine init_count_zero (step st (.op_init c)).1 rest ?_ h2
        rw [hstep]
      constructor
      · simp [initFirst, isInitOp]
      · rw [List.countP_cons]
        simp [isInitOp, hcnt]
    · by_cases ha : isApiOp op = true
      · exfalso
        rw [api_requires_init st op hin ha (by simpa using hi)] at h1
        simp [CallResult.isOk] at h1
      · obtain ⟨a, b, c, rfl⟩ := not_api_eq op (by simpa using ha)
        have hrec := ih (step st (.ev_packet_hit a b c)).1 h2 hin hev
        constructor
        · simp only [initFirst, isInitOp, isApiOp]
          exact hrec.1
        · rw [List.countP_cons]
          have h2' := hrec.2
          simp only [isInitOp]
          simpa using h2'

/-- Claim C10: in every valid call sequence (one in which every call
succeeds) no API function of the library precedes a successful
`doca_flow_init`, and `doca_flow_init` is a one-time call: it occurs at
most once in the sequence. -/
theorem init_must_be_first (ops : List FlowOp)
    (hok : allOkFrom initState ops = true) :
    initFirst ops = true ∧ ops.countP isInitOp ≤ 1 :=
  init_first_aux initState ops hok rfl rfl

/-- Instantiation of `init_must_be_first` on a concrete valid sequence
starting with the global initialization. -/
theorem init_must_be_first_witness :
    allOkFrom initState
      [.op_init cfg0, .op_port_start 0, .op_create_control_pipe 0] = true ∧
    (initFirst [.op_init cfg0, .op_port_start 0,
        .op_create_control_pipe 0] = true ∧
     ([.op_init cfg0, .op_port_start 0,
        .op_create_control_pipe 0] : List FlowOp).countP isInitOp ≤ 1) :=
  ⟨by decide, init_must_be_first _ (by decide)⟩

/-! ### Counter tracking (claim C8) -/

theorem next_entry_id_mono (st : EngineState) (op : FlowOp) :
    st.next_entry_id ≤ (step st op).1.next_entry_id := by
  cases op <;> simp only [step] <;> (repeat' split) <;>
    first
      | exact le_refl _
      | exact Nat.le_succ _

/-- Where an entry of the successor state comes from: it is either the
freshly installed entry or an entry of the predecessor with the same id
and counters at most the successor's. -/
theorem entries_origin (st : EngineState) (op : FlowOp)
    (e' : doca_flow_pipe_entry) (he : e' ∈ (step st op).1.entries) :
    e'.id = st.next_entry_id ∨
    ∃ e ∈ st.entries, e.id = e'.id ∧ e.total_bytes ≤ e'.total_bytes ∧
      e.total_pkts ≤ e'.total_pkts := by
  cases op with
  | op_init c =>
    simp only [step] at he
    split at he <;> exact Or.inr ⟨e', he, rfl, le_refl _, le_refl _⟩
  | op_port_start pid =>
    simp only [step] at he
    split at he
    · exact Or.inr ⟨e', he, rfl, le_refl _, le_refl _⟩
    · split at he <;> exact Or.inr ⟨e', he, rfl, le_refl _, le_refl _⟩
  | op_create_pipe nm pid root f fm =>
    simp only [step] at he
    split at he
    · exact Or.inr ⟨e', he, rfl, le_refl _, le_refl _⟩
    · split at he
      · exact Or.inr ⟨e', he, rfl, le_refl _, le_refl _⟩
      · split at he
        · exact Or.inr ⟨e', he, rfl, le_refl _, le_refl _⟩
        · split at he <;> exact Or.inr ⟨e', he, rfl, le_refl _, le_refl _⟩
  | op_create_control_pipe pid =>
    simp only [step] at he
    split at he
    · exact Or.inr ⟨e', he, rfl, le_refl _, le_refl _⟩
    · split at he
      · exact Or.inr ⟨e', he, rfl, le_refl _, le_refl _⟩
      · split at he <;> exact Or.inr ⟨e', he, rfl, le_refl _, le_refl _⟩
  | op_add_entry q pid m mon f now =>
    simp only [step] at he
    split at he
    · exact Or.inr ⟨e', he, rfl, le_refl _, le_refl _⟩
    · split at he
      · exact Or.inr ⟨e', he, rfl, le_refl _, le_refl _⟩
      · split at he
        · exact Or.inr ⟨e', he, rfl, le_refl _, le_refl _⟩
        · rcases List.mem_append.mp he with h | h
          · exact Or.inr ⟨e', h, rfl, le_refl _, le_refl _⟩
          · rw [List.mem_singleton] at h
            subst h
            exact Or.inl rfl
  | op_control_add_entry q prio pid m mask f now =>
    simp only [step] at he
    split at he
    · exact Or.inr ⟨e', he, rfl, le_refl _, le_refl _⟩
    · split at he
      · exact Or.inr ⟨e', he, rfl, le_refl _, le_refl _⟩
      · split at he
        · exact Or.inr ⟨e', he, rfl, le_refl _, le_refl _⟩
        · split at he
          · exact Or.inr ⟨e', he, rfl, le_refl _, le_refl _⟩
          · rcases List.mem_append.mp he with h | h
            · exact Or.inr ⟨e', h, rfl, le_refl _, le_refl _⟩
            · rw [List.mem_singleton] at h
              subst h
              exact Or.inl rfl
  | op_rm_entry q eid =>
    simp only [step] at he
    split at he
    · exact Or.inr ⟨e', he, rfl, le_refl _, le_refl _⟩
    · split at he
      · exact Or.inr ⟨e', List.mem_of_mem_filter he, rfl, le_refl _, le_refl _⟩
      · exact Or.inr ⟨e', he, rfl, le_refl _, le_refl _⟩
  | op_query eid =>
    simp only [step] at he
    split at he
    · exact Or.inr ⟨e', he, rfl, le_refl _, le_refl _⟩
    · split at he <;> exact Or.inr ⟨e', he, rfl, le_refl _, le_refl _⟩
  | op_handle_aging q now =>
    simp only [step] at he
    split at he
    · exact Or.inr ⟨e', he, rfl, le_refl _, le_refl _⟩
    · obtain ⟨x, hx, rfl⟩ := List.mem_map.mp he
      obtain ⟨hpk, hbt⟩ := agingMark_counts q now x
      exact Or.inr ⟨x, hx, (agingMark_id q now x).symm, le_of_eq hbt.symm,
        le_of_eq hpk.symm⟩
  | op_destroy_pipe prt pid =>
    simp only [step] at he
    split at he
    · exact Or.inr ⟨e', he, rfl, le_refl _, le_refl _⟩
    · exact Or.inr ⟨e', List.mem_of_mem_filter he, rfl, le_refl _, le_refl _⟩
  | op_flush_pipe pid =>
    simp only [step] at he
    split at he
    · exact Or.inr ⟨e', he, rfl, le_refl _, le_refl _⟩
    · exact Or.inr ⟨e', List.mem_of_mem_filter he, rfl, le_refl _, le_refl _⟩
  | op_destroy_port pid =>
    simp only [step] at he
    split at he
    · exact Or.inr ⟨e', he, rfl, le_refl _, le_refl _⟩
    · exact Or.inr ⟨e', List.mem_of_mem_filter he, rfl, le_refl _, le_refl _⟩
  | op_destroy =>
    simp only [step] at he
    split at he
    · exact Or.inr ⟨e', he, rfl, le_refl _, le_refl _⟩
    · exact absurd he (List.not_mem_nil e')
  | ev_packet_hit eid bytes now =>
    simp only [step] at he
    obtain ⟨x, hx, rfl⟩ := List.mem_map.mp he
    obtain ⟨hpk, hbt⟩ := hitUpdate_counts eid bytes now x
    exact Or.inr ⟨x, hx, (hitUpdate_id eid bytes now x).symm, hbt, hpk⟩

theorem queryEntry_some_mem (st : EngineState) (eid : Nat)
    (r : doca_flow_query_result) (h : queryEntry st eid = some r) :
    ∃ e ∈ st.entries, e.id = eid ∧ r = ⟨e.total_bytes, e.total_pkts⟩ := by
  rw [queryEntry] at h
  cases hf : findEntry st eid with
  | none =>
    rw [hf] at h
    simp at h
  | some e =>
    rw [hf] at h
    simp only [Option.map_some'] at h
    refine ⟨e, List.mem_of_find?_eq_some hf, ?_, (Option.some.inj h).symm⟩
    simpa using List.find?_some hf

theorem queryEntry_none_char (st : EngineState) (eid : Nat)
    (h : ∀ e ∈ st.entries, e.id ≠ eid) : queryEntry st eid = none := by
  rw [queryEntry, findEntry, List.find?_eq_none.mpr]
  · rfl
  · intro e he
    simpa using h e he

theorem query_none_step (st : EngineState) (op : FlowOp) (eid : Nat)
    (_hw : WF st) (hlt : eid < st.next_entry_id)
    (h : queryEntry st eid = none) : queryEntry (step st op).1 eid = none := by
  cases hq : queryEntry (step st op).1 eid with
  | none => rfl
  | some r =>
    exfalso
    obtain ⟨e', he', hid', _⟩ := queryEntry_some_mem _ _ _ hq
    rcases entries_origin st op e' he' with hnew | ⟨e0, he0, hid0, _, _⟩
    · omega
    · have : queryEntry st eid ≠ none := by
        rw [queryEntry, findEntry]
        cases hfind : st.entries.find? (fun e => e.id == eid) with
        | none =>
          rw [List.find?_eq_none] at hfind
          have := hfind e0 he0
          simp at this
          omega
        | some x => simp
      exact this h

theorem query_mono_step (st : EngineState) (op : FlowOp) (eid : Nat)
    (hw : WF st) (r : doca_flow_query_result)
    (h : queryEntry st eid = some r) :
    queryEntry (step st op).1 eid = none ∨
    ∃ r', queryEntry (step st op).1 eid = some r' ∧
      r.total_bytes ≤ r'.total_bytes ∧ r.total_pkts ≤ r'.total_pkts := by
  cases hq : queryEntry (step st op).1 eid with
  | none => exact Or.inl rfl
  | some r' =>
    right
    refine ⟨r', rfl, ?_⟩
    obtain ⟨e', he', hid', hr'⟩ := queryEntry_some_mem _ _ _ hq
    obtain ⟨e, he, hid, hr⟩ := queryEntry_some_mem _ _ _ h
    have heidlt : eid < st.next_entry_id := by
      have := hw.entries_lt e he
      omega
    rcases entries_origin st op e' he' with hnew | ⟨e0, he0, hid0, hb, hp⟩
    · omega
    · have he0e : e0 = e := mem_pairwise_lt_eq (fun y => y.id)
        hw.entries_sorted he0 he (by show e0.id = e.id; omega)
      subst he0e
      rw [hr, hr']
      exact ⟨hb, hp⟩

theorem query_none_run (st : EngineState) (ops : List FlowOp) (eid : Nat)
    (hw : WF st) (hlt : eid < st.next_entry_id)
    (h : queryEntry st eid = none) :
    queryEntry (runFrom st ops) eid = none := by
  induction ops generalizing st with
  | nil => exact h
  | cons op rest ih =>
    exact ih (step st op).1 (wf_step st op hw)
      (lt_of_lt_of_le hlt (next_entry_id_mono st op))
      (query_none_step st op eid hw hlt h)

theorem query_mono_run (ops : List FlowOp) (eid : Nat) :
    ∀ (st : EngineState), WF st → ∀ (r r' : doca_flow_query_result),
      queryEntry st eid = some r →
      queryEntry (runFrom st ops) eid = some r' →
      r.total_bytes ≤ r'.total_bytes ∧ r.total_pkts ≤ r'.total_pkts := by
  induction ops with
  | nil =>
    intro st _ r r' h h'
    have h0 : runFrom st [] = st := rfl
    rw [h0, h] at h'
    have hrr : r = r' := Option.some.inj h'
    subst hrr
    exact ⟨le_refl _, le_refl _⟩
  | cons op rest ih =>
    intro st hw r r' h h'
    have hw' := wf_step st op hw
    have hrun : runFrom st (op :: rest) = runFrom (step st op).1 rest := rfl
    rcases query_mono_step st op eid hw r h with hnone | ⟨r1, h1, hb1, hp1⟩
    · exfalso
      obtain ⟨e, he, heid, _⟩ := queryEntry_some_mem _ _ _ h
      have hlt : eid < st.next_entry_id := by
        have := hw.entries_lt e he
        omega
      have hlt1 : eid < (step st op).1.next_entry_id :=
        lt_of_lt_of_le hlt (next_entry_id_mono st op)
      have hfin : queryEntry (runFrom (step st op).1 rest) eid = none :=
        query_none_run (step st op).1 rest eid hw' hlt1 hnone
      rw [hrun, hfin] at h'
      exact Option.noConfusion h'
    · have hrec := ih (step st op).1 hw' r1 r' h1 (by rw [← hrun]; exact h')
      exact ⟨le_trans hb1 hrec.1, le_trans hp1 hrec.2⟩

theorem hitUpdate_monitor (eid bytes now : Nat) (e : doca_flow_pipe_entry) :
    (hitUpdate eid bytes now e).monitor = e.monitor := by
  unfold hitUpdate
  split <;> rfl

theorem hitUpdate_hit (eid bytes now : Nat) (e : doca_flow_pipe_entry)
    (h : (e.id == eid) = true) (hc : entryCountOn e = true) :
    hitUpdate eid bytes now e =
      { e with
          total_pkts := e.total_pkts + 1
          total_bytes := e.total_bytes + bytes
          last_seen := now } := by
  simp [hitUpdate, h, hc]

/-- After `k` packet hits on a counter-enabled entry, the query snapshot
advances by exactly `k` packets and `k * bytes` bytes. -/
theorem query_after_hits (k eid bytes now : Nat) :
    ∀ (st : EngineState) (e : doca_flow_pipe_entry),
      findEntry st eid = some e → entryCountOn e = true →
      queryEntry (runFrom st (List.replicate k (.ev_packet_hit eid bytes now)))
        eid = some ⟨e.total_bytes + k * bytes, e.total_pkts + k⟩ := by
  induction k with
  | zero =>
    intro st e hf hc
    have h0 : runFrom st (List.replicate 0
      (FlowOp.ev_packet_hit eid bytes now)) = st := rfl
    rw [h0, queryEntry, hf]
    simp
  | succ k ih =>
    intro st e hf hc
    have hbeq : (e.id == eid) = true := by simpa using List.find?_some hf
    have hrun : runFrom st (List.replicate (k + 1)
        (FlowOp.ev_packet_hit eid bytes now)) =
        runFrom (step st (.ev_packet_hit eid bytes now)).1
          (List.replicate k (FlowOp.ev_packet_hit eid bytes now)) := rfl
    have hf1 : findEntry (step st (.ev_packet_hit eid bytes now)).1 eid =
        some (hitUpdate eid bytes now e) := by
      show (st.entries.map (hitUpdate eid bytes now)).find?
          (fun x => x.id == eid) = _
      rw [find?_map_id_pres (fun x => x.id) (hitUpdate eid bytes now)
        (hitUpdate_id eid bytes now) st.entries eid]
      rw [show st.entries.find? (fun x => x.id == eid) = some e from hf]
      rfl
    have hc1 : entryCountOn (hitUpdate eid bytes now e) = true := by
      rw [entryCountOn, hitUpdate_monitor]
      exact hc
    have hrec := ih (step st (.ev_packet_hit eid bytes now)).1
      (hitUpdate eid bytes now e) hf1 hc1
    rw [hitUpdate_hit eid bytes now e hbeq hc] at hrec
    rw [hrun]
    rw [hrec]
    rw [show e.total_bytes + bytes + k * bytes =
      e.total_bytes + (k + 1) * bytes from by ring]
    rw [show e.total_pkts + 1 + k = e.total_pkts + (k + 1) from by ring]

/-- Claim C8: for an entry with the counter enabled, the query snapshot
after `k` observed matched packets reports `total_pkts` advanced by
exactly `k` (an entry created with zeroed counters therefore reports
`total_pkts = k`), and the reported counters are monotonically
non-decreasing across successive queries of the same entry over any
run of operations. -/
theorem counter_monotonicity
    (k eid bytes now : Nat) (st : EngineState) (e : doca_flow_pipe_entry)
    (hf : findEntry st eid = some e) (hc : entryCountOn e = true) :
    queryEntry (runFrom st (List.replicate k (.ev_packet_hit eid bytes now)))
      eid = some ⟨e.total_bytes + k * bytes, e.total_pkts + k⟩ ∧
    (∀ (ops : List FlowOp) (st0 : EngineState) (eid' : Nat)
       (r r' : doca_flow_query_result), WF st0 →
       queryEntry st0 eid' = some r →
       queryEntry (runFrom st0 ops) eid' = some r' →
       r.total_bytes ≤ r'.total_bytes ∧ r.total_pkts ≤ r'.total_pkts) :=
  ⟨query_after_hits k eid bytes now st e hf hc,
   fun ops st0 eid' r r' hw h h' => query_mono_run ops eid' st0 hw r r' h h'⟩

/-- The entry installed by the concrete counter scenario: counter
enabled (`DOCA_FLOW_MONITOR_COUNT`), zeroed counters. -/
def entryC8 : doca_flow_pipe_entry :=
  { id := 0
    pipe_id := 0
    queue := 0
    match_value := match0
    monitor := { flags := 4 }
    fwd := .fwd_drop }

/-- The concrete setup run for the counter scenario. -/
def opsC8 : List FlowOp :=
  [.op_init cfg0, .op_port_start 0,
   .op_create_pipe "p" 0 true .fwd_drop none,
   .op_add_entry 0 0 match0 { flags := 4 } .fwd_drop 0]

/-- Instantiation of `counter_monotonicity`: three packet hits of 10
bytes each on the freshly created counter-enabled entry report exactly
3 packets and 30 bytes. -/
theorem counter_monotonicity_witness :
    findEntry (run opsC8) 0 = some entryC8 ∧
    entryCountOn entryC8 = true ∧
    (queryEntry (runFrom (run opsC8)
        (List.replicate 3 (.ev_packet_hit 0 10 7))) 0 =
      some ⟨entryC8.total_bytes + 3 * 10, entryC8.total_pkts + 3⟩ ∧
     (∀ (ops : List FlowOp) (st0 : EngineState) (eid' : Nat)
        (r r' : doca_flow_query_result), WF st0 →
        queryEntry st0 eid' = some r →
        queryEntry (runFrom st0 ops) eid' = some r' →
        r.total_bytes ≤ r'.total_bytes ∧ r.total_pkts ≤ r'.total_pkts)) :=
  ⟨by decide, by decide,
    counter_monotonicity 3 0 10 7 (run opsC8) entryC8 (by decide) (by decide)⟩

/-! ### Control-pipe classification (claim C4)

Modelled from the spec: when two control-pipe entries would both match
an incoming packet, the lowest priority number wins and ties are broken
by insertion order (first inserted wins); entry ids are handed out in
strictly increasing creation order, so the id doubles as the
deterministic insertion rank. -/

/-- Mask a match value field-by-field with a bit-level mask. -/
def matchMasked (v mask : doca_flow_match) : doca_flow_match :=
  { flags := Nat.land v.flags mask.flags
    out_src_mac := macLand v.out_src_mac mask.out_src_mac
    out_dst_mac := macLand v.out_dst_mac mask.out_dst_mac
    out_eth_type := Nat.land v.out_eth_type mask.out_eth_type
    vlan_id := Nat.land v.vlan_id mask.vlan_id
    out_src_ip := v.out_src_ip.landIp mask.out_src_ip
    out_dst_ip := v.out_dst_ip.landIp mask.out_dst_ip
    out_l4_type := Nat.land v.out_l4_type mask.out_l4_type
    out_src_port := Nat.land v.out_src_port mask.out_src_port
    out_dst_port := Nat.land v.out_dst_port mask.out_dst_port
    tun := v.tun.landTun mask.tun
    in_eth_type := Nat.land v.in_eth_type mask.in_eth_type
    in_src_ip := v.in_src_ip.landIp mask.in_src_ip
    in_dst_ip := v.in_dst_ip.landIp mask.in_dst_ip
    in_l4_type := Nat.land v.in_l4_type mask.in_l4_type
    in_src_port := Nat.land v.in_src_port mask.in_src_port
    in_dst_port := Nat.land v.in_dst_port mask.in_dst_port }

/-- Whether a packet's headers match an entry's match value under the
entry's mask. -/
def matchesPacket (pkt : doca_flow_match) (e : doca_flow_pipe_entry) : Bool :=
  decide (matchMasked pkt e.match_mask = matchMasked e.match_value e.match_mask)

/-- The entries of a pipe matching a packet, in insertion order. -/
def matchingEntries (st : EngineState) (pid : Nat) (pkt : doca_flow_match) :
    List doca_flow_pipe_entry :=
  st.entries.filter (fun e => e.pipe_id == pid && matchesPacket pkt e)

/-- Strict classification preference: lower priority number wins, ties
broken by earlier insertion (smaller creation id). -/
def lexBetter (a b : doca_flow_pipe_entry) : Bool :=
  decide (a.priority < b.priority) ||
    ((a.priority == b.priority) && decide (a.id < b.id))

/-- Pick the winning entry of a candidate list under `lexBetter`,
keeping the earlier entry on full ties. -/
def pickBest : List doca_flow_pipe_entry → Option doca_flow_pipe_entry
  | [] => none
  | e :: es =>
    match pickBest es with
    | none => some e
    | some w => if lexBetter w e then some w else some e

/-- Resolve which entry of a (control) pipe classifies a packet. -/
def classify (st : EngineState) (pid : Nat) (pkt : doca_flow_match) :
    Option doca_flow_pipe_entry :=
  pickBest (matchingEntries st pid pkt)

theorem lexBetter_true_le (a b : doca_flow_pipe_entry)
    (h : lexBetter a b = true) :
    a.priority < b.priority ∨ (a.priority = b.priority ∧ a.id ≤ b.id) := by
  simp [lexBetter] at h
  omega

theorem lexBetter_false_le (a b : doca_flow_pipe_entry)
    (h : lexBetter a b = false) :
    b.priority < a.priority ∨ (b.priority = a.priority ∧ b.id ≤ a.id) := by
  simp [lexBetter] at h
  omega

theorem pickBest_eq_none (l : List doca_flow_pipe_entry) :
    pickBest l = none ↔ l = [] := by
  cases l with
  | nil => simp [pickBest]
  | cons e es =>
    constructor
    · intro h
      exfalso
      cases hp : pickBest es with
      | none =>
        have hh : pickBest (e :: es) = some e := by simp [pickBest, hp]
        rw [h] at hh
        exact Option.noConfusion hh
      | some w =>
        by_cases hb : lexBetter w e = true
        · have hh : pickBest (e :: es) = some w := by simp [pickBest, hp, hb]
          rw [h] at hh
          exact Option.noConfusion hh
        · have hh : pickBest (e :: es) = some e := by simp [pickBest, hp, hb]
          rw [h] at hh
          exact Option.noConfusion hh
    · intro h
      exact absurd h (by simp)

theorem pickBest_mem (l : List doca_flow_pipe_entry) :
    ∀ (w : doca_flow_pipe_entry), pickBest l = some w → w ∈ l := by
  induction l with
  | nil =>
    intro w h
    simp [pickBest] at h
  | cons e es ih =>
    intro w h
    cases hp : pickBest es with
    | none =>
      have hh : pickBest (e :: es) = some e := by simp [pickBest, hp]
      have hew : e = w := Option.some.inj (hh.symm.trans h)
      rw [← hew]
      exact List.mem_cons_self _ _
    | some w' =>
      by_cases hb : lexBetter w' e = true
      · have hh : pickBest (e :: es) = some w' := by simp [pickBest, hp, hb]
        have hww : w' = w := Option.some.inj (hh.symm.trans h)
        rw [hww] at hp
        exact List.mem_cons_of_mem _ (ih w hp)
      · have hh : pickBest (e :: es) = some e := by simp [pickBest, hp, hb]
        have hew : e = w := Option.some.inj (hh.symm.trans h)
        rw [← hew]
        exact List.mem_cons_self _ _

theorem pickBest_min (l : List doca_flow_pipe_entry) :
    ∀ (w : doca_flow_pipe_entry), pickBest l = some w → ∀ x ∈ l,
      w.priority < x.priority ∨ (w.priority = x.priority ∧ w.id ≤ x.id) := by
  induction l with
  | nil =>
    intro w h
    simp [pickBest] at h
  | cons e es ih =>
    intro w h x hx
    cases hp : pickBest es with
    | none =>
      have hh : pickBest (e :: es) = some e := by simp [pickBest, hp]
      have hew : e = w := Option.some.inj (hh.symm.trans h)
      have hes : es = [] := (pickBest_eq_none es).mp hp
      subst hes
      rw [List.mem_singleton] at hx
      rw [← hew, hx]
      omega
    | some w' =>
      by_cases hb : lexBetter w' e = true
      · have hh : pickBest (e :: es) = some w' := by simp [pickBest, hp, hb]
        have hww : w' = w := Option.some.inj (hh.symm.trans h)
        rcases List.mem_cons.mp hx with rfl | hx'
        · have := lexBetter_true_le w' x hb
          rw [hww] at this
          exact this
        · rw [hww] at hp
          exact ih w hp x hx'
      · have hh : pickBest (e :: es) = some e := by simp [pickBest, hp, hb]
        have hew : e = w := Option.some.inj (hh.symm.trans h)
        have h1 := lexBetter_false_le w' e (by simpa using hb)
        rcases List.mem_cons.mp hx with rfl | hx'
        · rw [← hew]
          omega
        · have h2 := ih w' hp x hx'
          rw [← hew]
          omega

/-- Claim C4: for every control pipe and packet matched by at least one
entry, classification resolves to a matching entry whose priority number
is minimal, with ties between equal priorities broken by insertion
order — first inserted (smallest creation id) wins; and the insertion
order is deterministic: in every reachable state the entry list is
strictly ordered by creation id. -/
theorem control_pipe_priority :
    (∀ (st : EngineState) (pid : Nat) (pkt : doca_flow_match)
       (e1 : doca_flow_pipe_entry), e1 ∈ matchingEntries st pid pkt →
       ∃ w, classify st pid pkt = some w ∧ w ∈ matchingEntries st pid pkt ∧
         ∀ e ∈ matchingEntries st pid pkt,
           w.priority < e.priority ∨ (w.priority = e.priority ∧ w.id ≤ e.id)) ∧
    (∀ ops : List FlowOp,
       (run ops).entries.Pairwise (fun a b => a.id < b.id)) := by
  constructor
  · intro st pid pkt e1 h1
    cases hc : classify st pid pkt with
    | none =>
      rw [classify, pickBest_eq_none] at hc
      rw [hc] at h1
      exact absurd h1 (List.not_mem_nil e1)
    | some w =>
      exact ⟨w, rfl, pickBest_mem _ w hc, pickBest_min _ w hc⟩
  · intro ops
    exact (wf_run ops).entries_sorted

/-- The lower-priority overlapping entry of the concrete classification
scenario (priority 5, inserted second). -/
def entryPrio5 : doca_flow_pipe_entry :=
  { id := 1
    pipe_id := 0
    queue := 0
    priority := 5
    fwd := .fwd_port 2 }

/-- The higher-priority overlapping entry of the concrete classification
scenario (priority 10, inserted first). -/
def entryPrio10 : doca_flow_pipe_entry :=
  { id := 0
    pipe_id := 0
    queue := 0
    priority := 10
    fwd := .fwd_drop }

/-- The concrete classification state: one control pipe with two
overlapping entries of priorities 10 and 5. -/
def stC4 : EngineState :=
  { inited := true
    ever_inited := true
    cfg := none
    ports := [0]
    pipes := [{ id := 0, port_id := 0, is_control := true }]
    entries := [entryPrio10, entryPrio5]
    next_pipe_id := 1
    next_entry_id := 2 }

/-- Instantiation of `control_pipe_priority`: with overlapping entries
of priorities 5 and 10 matching the same packet, classification resolves
to the priority-5 entry. -/
theorem control_pipe_priority_witness :
    entryPrio10 ∈ matchingEntries stC4 0 match0 ∧
    (∃ w, classify stC4 0 match0 = some w ∧
      w ∈ matchingEntries stC4 0 match0 ∧
      ∀ e ∈ matchingEntries stC4 0 match0,
        w.priority < e.priority ∨ (w.priority = e.priority ∧ w.id ≤ e.id)) ∧
    classify stC4 0 match0 = some entryPrio5 :=
  ⟨by decide,
   control_pipe_priority.1 stC4 0 match0 entryPrio10 (by decide),
   by decide⟩

end DocaFlow
